import Mathlib

/-!
Verification development for the Listen-Up distributed job-orchestration
engine.  The Python sources are shallowly embedded: every definition below
is translated from a named function of the repository (the doc comments
name the source file and symbol).  Strings are modelled as lists of
characters (`Str`), Python dictionaries as association lists, and the
MongoDB job store as an explicit list of job documents.
-/

namespace ListenUp

/-- Character strings of the embedded program, modelled as `List Char`. -/
abbrev Str := List Char

/-- Coerce a Lean string literal to the embedded string type. -/
def str (s : String) : Str := s.data

/-- The left curly-brace character. -/
def lbrace : Char := '\x7b'

/-- The right curly-brace character. -/
def rbrace : Char := '\x7d'

/-- Wrap a string in a double pair of braces, building a template token. -/
def dbl (s : Str) : Str := lbrace :: lbrace :: s ++ [rbrace, rbrace]

/-- The opening marker of a placeholder: two left braces. -/
def opBraces : Str := [lbrace, lbrace]

/-- The closing marker of a placeholder: two right braces. -/
def clBraces : Str := [rbrace, rbrace]

/-! ## MD5 (Python `hashlib.md5`), needed by `JobStep.params_hash` -/

/-- 2^32, the word modulus of MD5 arithmetic. -/
def m32 : Nat := 4294967296

/-- Rotate a 32-bit word (a `Nat` below `m32`) left by `s` bits. -/
def rotl32 (x s : Nat) : Nat := (((x <<< s) % m32) ||| (x >>> (32 - s)))

/-- Bitwise complement of a 32-bit word. -/
def not32 (x : Nat) : Nat := x ^^^ 4294967295

/-- The 64 MD5 sine-derived round constants. -/
def md5K : List Nat := [
  3614090360, 3905402710, 606105819, 3250441966, 4118548399, 1200080426, 2821735955, 4249261313,
  1770035416, 2336552879, 4294925233, 2304563134, 1804603682, 4254626195, 2792965006, 1236535329,
  4129170786, 3225465664, 643717713, 3921069994, 3593408605, 38016083, 3634488961, 3889429448,
  568446438, 3275163606, 4107603335, 1163531501, 2850285829, 4243563512, 1735328473, 2368359562,
  4294588738, 2272392833, 1839030562, 4259657740, 2763975236, 1272893353, 4139469664, 3200236656,
  681279174, 3936430074, 3572445317, 76029189, 3654602809, 3873151461, 530742520, 3299628645,
  4096336452, 1126891415, 2878612391, 4237533241, 1700485571, 2399980690, 4293915773, 2240044497,
  1873313359, 4264355552, 2734768916, 1309151649, 4149444226, 3174756917, 718787259, 3951481745]

/-- The 64 MD5 per-round left-rotation amounts. -/
def md5S : List Nat := [
  7, 12, 17, 22, 7, 12, 17, 22, 7, 12, 17, 22, 7, 12, 17, 22,
  5, 9, 14, 20, 5, 9, 14, 20, 5, 9, 14, 20, 5, 9, 14, 20,
  4, 11, 16, 23, 4, 11, 16, 23, 4, 11, 16, 23, 4, 11, 16, 23,
  6, 10, 15, 21, 6, 10, 15, 21, 6, 10, 15, 21, 6, 10, 15, 21]

/-- MD5 padding: append `0x80`, zero bytes to 56 mod 64, then the original
bit length as eight little-endian bytes. -/
def md5pad (msg : List Nat) : List Nat :=
  let bitLen := (8 * msg.length) % (2 ^ 64)
  let padZeros := (55 + 64 - msg.length % 64) % 64
  msg ++ [128] ++ List.replicate padZeros 0 ++
    (List.range 8).map (fun i => (bitLen >>> (8 * i)) % 256)

/-- Split a padded message into 16-word little-endian blocks. -/
def md5blocks (padded : List Nat) : List (List Nat) :=
  let rec go (l : List Nat) (fuel : Nat) : List (List Nat) :=
    match fuel with
    | 0 => []
    | fuel + 1 =>
      match l with
      | [] => []
      | _ =>
        let blk := l.take 64
        let words := (List.range 16).map (fun j =>
          blk.getD (4*j) 0 + (blk.getD (4*j+1) 0) <<< 8 +
          (blk.getD (4*j+2) 0) <<< 16 + (blk.getD (4*j+3) 0) <<< 24)
        words :: go (l.drop 64) fuel
  go padded (padded.length + 1)

/-- One MD5 round step. -/
def md5step (M : List Nat) (st : Nat × Nat × Nat × Nat) (i : Nat) :
    Nat × Nat × Nat × Nat :=
  let a := st.1; let b := st.2.1; let c := st.2.2.1; let d := st.2.2.2
  let fg : Nat × Nat :=
    if i < 16 then ((b &&& c) ||| (not32 b &&& d), i)
    else if i < 32 then ((d &&& b) ||| (not32 d &&& c), (5*i + 1) % 16)
    else if i < 48 then (b ^^^ c ^^^ d, (3*i + 5) % 16)
    else (c ^^^ (b ||| not32 d), (7*i) % 16)
  let f := (fg.1 + a + md5K.getD i 0 + M.getD fg.2 0) % m32
  (d, (b + rotl32 f (md5S.getD i 0)) % m32, b, c)

/-- Process one 512-bit block, updating the four-word state. -/
def md5block (st : Nat × Nat × Nat × Nat) (M : List Nat) :
    Nat × Nat × Nat × Nat :=
  let r := (List.range 64).foldl (md5step M) st
  ((st.1 + r.1) % m32, (st.2.1 + r.2.1) % m32,
   (st.2.2.1 + r.2.2.1) % m32, (st.2.2.2 + r.2.2.2) % m32)

/-- Lower-case hex digit for a value below 16. -/
def hexDigit (n : Nat) : Char :=
  if n < 10 then Char.ofNat (48 + n) else Char.ofNat (87 + n)

/-- Little-endian hex rendering of a 32-bit word (MD5 digest order). -/
def hexWordLE (w : Nat) : Str :=
  (List.range 4).flatMap (fun i =>
    let byte := (w >>> (8 * i)) % 256
    [hexDigit (byte / 16), hexDigit (byte % 16)])

/-- MD5 digest of a byte sequence, as a 32-character lower-case hex string. -/
def md5hex (msg : List Nat) : Str :=
  let st := (md5blocks (md5pad msg)).foldl md5block
    (1732584193, 4023233417, 2562383102, 271733878)
  hexWordLE st.1 ++ hexWordLE st.2.1 ++ hexWordLE st.2.2.1 ++ hexWordLE st.2.2.2

/-- UTF-8 encoding of one character (Python `str.encode("utf-8")`). -/
def utf8Char (c : Char) : List Nat :=
  let n := c.toNat
  if n < 128 then [n]
  else if n < 2048 then [192 + n / 64, 128 + n % 64]
  else if n < 65536 then [224 + n / 4096, 128 + (n / 64) % 64, 128 + n % 64]
  else [240 + n / 262144, 128 + (n / 4096) % 64, 128 + (n / 64) % 64, 128 + n % 64]

/-- UTF-8 encoding of a string. -/
def utf8 (s : Str) : List Nat := s.flatMap utf8Char

/-! ## JSON canonical encoding (Python `json.dumps(..., sort_keys=True,
separators=(",", ":"))`), used by `JobStep.params_hash` -/

/-- A scalar flag value of a `CommandSpec` (`Union[str, int, bool]`; the
source type also admits `float`, which the embedding omits). -/
inductive JVal where
  | s (v : Str)
  | i (n : Int)
  | b (v : Bool)
  deriving DecidableEq, Repr

/-- JSON escape of one character inside a string literal, as `json.dumps`
renders it with the default `ensure_ascii=True`. -/
def jsonEscChar (c : Char) : Str :=
  if c = '"' then ['\\', '"']
  else if c = '\\' then ['\\', '\\']
  else if c = Char.ofNat 8 then ['\\', 'b']
  else if c = Char.ofNat 9 then ['\\', 't']
  else if c = Char.ofNat 10 then ['\\', 'n']
  else if c = Char.ofNat 12 then ['\\', 'f']
  else if c = Char.ofNat 13 then ['\\', 'r']
  else if 32 ≤ c.toNat ∧ c.toNat ≤ 126 then [c]
  else if c.toNat < 65536 then
    ['\\', 'u', hexDigit (c.toNat / 4096 % 16), hexDigit (c.toNat / 256 % 16),
     hexDigit (c.toNat / 16 % 16), hexDigit (c.toNat % 16)]
  else
    let n := c.toNat - 65536
    let hi := 55296 + n / 1024
    let lo := 56320 + n % 1024
    ['\\', 'u', hexDigit (hi / 4096 % 16), hexDigit (hi / 256 % 16),
     hexDigit (hi / 16 % 16), hexDigit (hi % 16),
     '\\', 'u', hexDigit (lo / 4096 % 16), hexDigit (lo / 256 % 16),
     hexDigit (lo / 16 % 16), hexDigit (lo % 16)]

/-- JSON rendering of a string literal. -/
def jsonStr (s : Str) : Str := '"' :: s.flatMap jsonEscChar ++ ['"']

/-- Decimal rendering of an integer (Python `repr`). -/
def intRepr (n : Int) : Str := (toString n).data

/-- JSON rendering of a scalar value. -/
def jsonVal : JVal → Str
  | .s v => jsonStr v
  | .i n => intRepr n
  | .b true => str "true"
  | .b false => str "false"

/-- Code-point lexicographic strict order on strings (Python `str` `<`). -/
def strLt : Str → Str → Bool
  | [], [] => false
  | [], _ :: _ => true
  | _ :: _, [] => false
  | a :: as, b :: bs => if a.toNat < b.toNat then true
      else if a = b then strLt as bs else false

/-- Insert a key/value pair into a list sorted by key (string order). -/
def insertByKey (p : Str × JVal) : List (Str × JVal) → List (Str × JVal)
  | [] => [p]
  | q :: rest =>
    if strLt q.1 p.1 then q :: insertByKey p rest
    else p :: q :: rest

/-- Sort an association list by key (the `sort_keys=True` of `json.dumps`). -/
def sortByKey (l : List (Str × JVal)) : List (Str × JVal) :=
  l.foldr insertByKey []

/-- `json.dumps(d, sort_keys=True, separators=(",", ":"))` for a flat
string-keyed dictionary of scalars. -/
def jsonDumpsSorted (l : List (Str × JVal)) : Str :=
  let items := (sortByKey l).map (fun p => jsonStr p.1 ++ ':' :: jsonVal p.2)
  lbrace :: (items.intersperse [',']).flatten ++ [rbrace]

/-! ## Enums (`job_step_status_enum.py`, `job_status_enum.py`).
`JobStepState` of `job_step_state_enum.py` has the same seven values and is
modelled by the same type. -/

/-- `JobStepStatus` / `JobStepState`: the seven step status values. -/
inductive JobStepStatus where
  | pending | processing | initializing | running | uploading | complete | failed
  deriving DecidableEq, Repr

/-- The wire string of a step status (the `str`-enum value). -/
def JobStepStatus.value : JobStepStatus → Str
  | .pending => str "pending"
  | .processing => str "processing"
  | .initializing => str "initializing"
  | .running => str "running"
  | .uploading => str "uploading"
  | .complete => str "complete"
  | .failed => str "failed"

/-- `JobStepStatus(raw)`: parse a wire string, `none` on `ValueError`. -/
def JobStepStatus.fromStr (s : Str) : Option JobStepStatus :=
  [JobStepStatus.pending, .processing, .initializing, .running, .uploading,
   .complete, .failed].find? (fun v => v.value = s)

/-- `JobStatus`: the four job status values. -/
inductive JobStatus where
  | pending | processing | complete | failed
  deriving DecidableEq, Repr

/-! ## Data model (`command_spec.py`, `job_step.py`, `step_transition.py`,
`job.py`) -/

/-- `CommandSpec` (shared/modules/job/models/command_spec.py).  The
`to_subprocess` rendering is not needed by the claims. -/
structure CommandSpec where
  program : Str
  flags : List (Str × JVal) := []
  args : List Str := []
  shell : Bool := false
  cwd : Option Str := none
  env : Option (List (Str × Str)) := none
  deriving DecidableEq, Repr

/-- `JobStep` (shared/modules/job/models/job_step.py).  The `log_tail`,
`started_at` and `finished_at` fields are carried by no claim and omitted. -/
structure JobStep where
  name : Str
  step_id : Str
  order : Option Nat := none
  command_spec : Option CommandSpec := none
  status : JobStepStatus := .pending
  inputs : List (Str × Str) := []
  outputs : List (Str × Str) := []
  microservice : Option Str := none
  deriving DecidableEq, Repr

/-- `JobStep.params_hash`: stable MD5 of the canonical JSON of the
parameters (`json.dumps(params or {}, sort_keys=True,
separators=(",", ":"))`); the `str(params)` fallback for unserializable
parameters cannot arise for `JVal` scalars. -/
def params_hash (params : List (Str × JVal)) : Str :=
  md5hex (utf8 (jsonDumpsSorted params))

/-- `f"{n:03d}"`: decimal rendering zero-padded to at least three digits. -/
def pad3 (n : Nat) : Str :=
  let d := (toString n).data
  List.replicate (3 - d.length) '0' ++ d

/-- `JobStep.get_composite_name`:
`<order>_<service>_<program>_<param_hash8>` with the source's fallbacks
(`"000"`, `"unknown"`) for missing fields; an empty-string `microservice`
or `program` is falsy in Python and also falls back. -/
def get_composite_name (s : JobStep) : Str :=
  let orderStr := match s.order with
    | none => str "000"
    | some n => pad3 n
  let serviceName := match s.microservice with
    | none => str "unknown"
    | some m => if m = [] then str "unknown" else m
  let programName := match s.command_spec with
    | none => str "unknown"
    | some cs => if cs.program = [] then str "unknown" else cs.program
  let paramsToHash := match s.command_spec with
    | none => []
    | some cs => cs.flags
  let paramHash := (params_hash paramsToHash).take 8
  orderStr ++ '_' :: serviceName ++ '_' :: programName ++ '_' :: paramHash

/-- `StepTransition` (shared/modules/job/models/step_transition.py): a
directed edge; `output_to_input_mapping` is declared `List[int]` there (a
JSON-object mapping in a payload fails its validation). -/
structure StepTransition where
  from_step_id : Str
  to_step_id : Str
  output_to_input_mapping : List Int := []
  deriving DecidableEq, Repr

/-- `Job` (shared/modules/job/models/job.py) with the `user_id` the
orchestrator stores on it; `created_at` / `updated_at` timestamps are
carried by no claim and omitted. -/
structure Job where
  job_id : Str
  user_id : Option Str := none
  status : JobStatus := .pending
  steps : List JobStep := []
  step_transitions : List StepTransition := []
  deriving DecidableEq, Repr

/-! ## String utilities shared by the embedded resolvers -/

/-- `s.startswith(pat)`. -/
def startsWithStr (pat s : Str) : Bool := pat.isPrefixOf s

/-- `s.endswith(pat)`. -/
def endsWithStr (pat s : Str) : Bool := pat.reverse.isPrefixOf s.reverse

/-- Does `pat` occur as a contiguous substring? -/
def hasSub (pat : Str) : Str → Bool
  | [] => pat.isPrefixOf []
  | c :: rest => pat.isPrefixOf (c :: rest) || hasSub pat rest

/-- Strip all leading and trailing characters satisfying `p`
(Python `str.strip(chars)`). -/
def stripChars (p : Char → Bool) (l : Str) : Str :=
  ((l.dropWhile p).reverse.dropWhile p).reverse

/-- Is the character one of the two curly braces (the set `"{}"`) ? -/
def isBrace (c : Char) : Bool := c = lbrace || c = rbrace

/-- Python whitespace for the no-argument `str.strip()`. -/
def isSpaceChar (c : Char) : Bool :=
  c = ' ' || c = '\t' || c = '\n' || c = '\x0d' || c = '\x0b' || c = '\x0c'

/-- Fuel-indexed worker for `str.replace`: replaces non-overlapping
occurrences left to right, never rescanning inserted text.  With fuel
`≥ s.length` the fuel never runs out, since every step consumes at least
one character. -/
def replaceAllAux (old new : Str) : Nat → Str → Str
  | 0, s => s
  | fuel + 1, s =>
    match s with
    | [] => []
    | c :: rest =>
      if old.isPrefixOf (c :: rest) && !old.isEmpty then
        new ++ replaceAllAux old new fuel (List.drop old.length (c :: rest))
      else c :: replaceAllAux old new fuel rest

/-- Python `s.replace(old, new)` for non-empty `old` (every use below has a
non-empty `old`; the guard makes an empty `old` the identity instead of
Python's interleaving). -/
def replaceAll (old new s : Str) : Str := replaceAllAux old new s.length s

/-- A Python `Dict[str, str]` whose values may be `None`: an absent key and
a key bound to `None` are both read as `None` by `.get`. -/
abbrev PyDict := List (Str × Option Str)

/-- `d.get(k)`. -/
def pyGet (d : PyDict) (k : Str) : Option Str :=
  match d.find? (fun p => p.1 = k) with
  | none => none
  | some p => p.2

/-- Python truthiness of a `str | None` value. -/
def pyTruthy : Option Str → Bool
  | none => false
  | some s => !s.isEmpty

/-- All-string dictionary as a `PyDict`. -/
def toPyDict (d : List (Str × Str)) : PyDict := d.map (fun p => (p.1, some p.2))

/-- First-match lookup in a string dictionary. -/
def lookupStr (d : List (Str × Str)) (k : Str) : Option Str :=
  (d.find? (fun p => p.1 = k)).map (fun p => p.2)

/-- Python `dict.update`: keys of `upd` override `base`, new keys append. -/
def dictUpdate (base upd : List (Str × Str)) : List (Str × Str) :=
  base.map (fun p => ((p.1 : Str), (lookupStr upd p.1).getD p.2)) ++
    upd.filter (fun q => (lookupStr base q.1).isNone)

/-! ## `CommandResolver` (shared/modules/job/command_resolver.py) -/

namespace CommandResolver

/-- `_replace_placeholders` on a string value: a value of the exact shape
`{{...}}` is looked up (inputs first, then outputs, Python `or` chain:
falsy values fall through) under the key obtained by stripping braces and
then whitespace. -/
def replace_placeholders (inputs outputs : PyDict) (value : Str) : Str :=
  if startsWithStr opBraces value && endsWithStr clBraces value then
    let key := stripChars isSpaceChar (stripChars isBrace value)
    let v1 := pyGet inputs key
    if pyTruthy v1 then v1.getD [] else
      let v2 := pyGet outputs key
      if pyTruthy v2 then v2.getD [] else value
  else value

/-- `_replace_placeholders` on a flag value: non-string scalars are
returned unchanged (`if not isinstance(value, str)`). -/
def replaceVal (inputs outputs : PyDict) : JVal → JVal
  | .s v => .s (replace_placeholders inputs outputs v)
  | v => v

/-- `CommandResolver.resolve`: rewrite flags and args, preserving every
other field; the input spec is not mutated. -/
def resolve (spec : CommandSpec) (inputs outputs : PyDict) : CommandSpec :=
  { program := spec.program
    flags := spec.flags.map (fun p => (p.1, replaceVal inputs outputs p.2))
    args := spec.args.map (replace_placeholders inputs outputs)
    shell := spec.shell
    cwd := spec.cwd
    env := spec.env }

end CommandResolver

/-! ## `PathTemplateResolver`
(shared/modules/job/services/path_template_resolver.py) -/

namespace PathTemplateResolver

/-- What `resolve` reads from its `step` argument: `step.step_id` and
`step.get_composite_name()` (callers pass either a `JobStep` or a
namespace object with a custom composite-name closure). -/
structure StepCtx where
  step_id : Str
  composite_name : Str
  deriving DecidableEq, Repr

/-- What `resolve` reads from its `job` argument: `job.job_id`,
`job.user_id` and `job.steps`. -/
structure JobCtx where
  job_id : Str
  user_id : Option Str
  steps : List JobStep
  deriving DecidableEq, Repr

/-- The resolver context of a real `JobStep`. -/
def stepCtxOf (s : JobStep) : StepCtx := ⟨s.step_id, get_composite_name s⟩

/-- The resolver context of a real `Job`. -/
def jobCtxOf (j : Job) : JobCtx := ⟨j.job_id, j.user_id, j.steps⟩

/-- A character of the regex class `[a-zA-Z0-9_-]`. -/
def isWordChar (c : Char) : Bool :=
  ('a' ≤ c && c ≤ 'z') || ('A' ≤ c && c ≤ 'Z') || ('0' ≤ c && c ≤ '9') ||
    c = '_' || c = '-'

/-- Match the pattern
`\x7b\x7bsteps\.([a-zA-Z0-9_-]+)\.outputs\.([a-zA-Z0-9_-]+)\x7d\x7d`
anchored at the head of `s`, returning the two groups and the remainder.
Since `.` and the braces are outside the character class, the greedy `+`
matches the maximal word-character run and never backtracks, so this
deterministic scan agrees with the regex. -/
def parseStepRef (s : Str) : Option (Str × Str × Str) :=
  if (lbrace :: lbrace :: str "steps.").isPrefixOf s then
    let rest1 := s.drop 8
    let name := rest1.takeWhile isWordChar
    let rest2 := rest1.dropWhile isWordChar
    if !name.isEmpty && (str ".outputs.").isPrefixOf rest2 then
      let rest3 := rest2.drop 9
      let key := rest3.takeWhile isWordChar
      let rest4 := rest3.dropWhile isWordChar
      if !key.isEmpty && [rbrace, rbrace].isPrefixOf rest4 then
        some (name, key, rest4.drop 2)
      else none
    else none
  else none

/-- Fuel-indexed worker for `re.sub` with the replacer of
`_resolve_step_references`: leftmost matches are substituted (the
replacement is not rescanned), and the replacer raises `ValueError` when
the referenced step id or output key is missing.  Fuel `≥ s.length` never
runs out. -/
def stepRefsAux (job : JobCtx) : Nat → Str → Except Str Str
  | 0, s => .ok s
  | fuel + 1, s =>
    match s with
    | [] => .ok []
    | c :: rest =>
      match parseStepRef (c :: rest) with
      | some (name, key, remainder) =>
        match job.steps.find? (fun st => st.step_id = name) with
        | none => .error (str "Unknown step " ++ name)
        | some target =>
          match lookupStr target.outputs key with
          | none => .error (str "Step " ++ name ++ str " has no output " ++ key)
          | some v =>
            match stepRefsAux job fuel remainder with
            | .ok r => .ok (v ++ r)
            | .error e => .error e
      | none =>
        match stepRefsAux job fuel rest with
        | .ok r => .ok (c :: r)
        | .error e => .error e

/-- `_resolve_step_references`: substitute `steps.<x>.outputs.<y>`
references; note the source looks the captured `<x>` up against
`s.step_id`, not `s.name`. -/
def resolve_step_references (job : JobCtx) (template : Str) : Except Str Str :=
  stepRefsAux job template.length template

/-- `PathTemplateResolver.resolve`: scalar tokens first (`user_id` only
when truthy, step tokens only when a step is given), then cross-step
references. -/
def resolve (job : JobCtx) (step : Option StepCtx) (template : Str) :
    Except Str Str :=
  let v := replaceAll (dbl (str "job_id")) job.job_id template
  let v := if pyTruthy job.user_id
    then replaceAll (dbl (str "user_id")) (job.user_id.getD []) v else v
  let v := match step with
    | some sc =>
      replaceAll (dbl (str "composite_name")) sc.composite_name
        (replaceAll (dbl (str "step_id")) sc.step_id v)
    | none => v
  resolve_step_references job v

end PathTemplateResolver

/-! ## `JobStepEvent` (shared/modules/job/models/job_step_event.py) -/

/-- `STORAGE_ROOT` (environment variable, default `/app/storage`). -/
def STORAGE_ROOT : Str := str "/app/storage"

namespace JobStepEvent

/-- The dispatch envelope before resolution; `command_spec` is the dict
`step.command_spec.dict() if step.command_spec else \x7b\x7d` — rebuilding a
`CommandSpec` from the empty dict fails validation (`program` required),
which `none` models. -/
structure Event where
  job_id : Str
  step_id : Str
  step_name : Str
  microservice : Str
  command_spec : Option CommandSpec
  inputs : List (Str × Str)
  outputs : List (Str × Str)
  composite_name : Option Str := none
  deriving DecidableEq, Repr

/-- `_resolve_template_variables`: template resolution against a namespace
job carrying no steps and a namespace step whose composite name is
`self.composite_name or self.step_id`, then rooting of relative paths that
contain a slash under `STORAGE_ROOT`. -/
def resolve_template_variables (e : Event) (userId : Option Str)
    (value : Str) : Except Str Str :=
  let jc : PathTemplateResolver.JobCtx := ⟨e.job_id, userId, []⟩
  let sc : PathTemplateResolver.StepCtx :=
    ⟨e.step_id, if pyTruthy e.composite_name
      then e.composite_name.getD [] else e.step_id⟩
  match PathTemplateResolver.resolve jc (some sc) value with
  | .error er => .error er
  | .ok rv =>
    .ok (if hasSub (str "/") rv && !startsWithStr (str "/") rv
      then STORAGE_ROOT ++ '/' :: rv else rv)

/-- `_resolve_inputs`: each input value is template-resolved; a value that
is then a bare `\x7b\x7b...\x7d\x7d` placeholder is replaced by the matching
previous output if one exists and otherwise left at its original
(unresolved) value. -/
def resolve_inputs (e : Event) (previousOutputs : List (Str × Str))
    (userId : Option Str) : Except Str (List (Str × Str)) :=
  e.inputs.mapM (fun p => do
    let v ← resolve_template_variables e userId p.2
    if startsWithStr opBraces v && endsWithStr clBraces v then
      let ph := stripChars isBrace v
      match lookupStr previousOutputs ph with
      | some pv => pure ((p.1 : Str), pv)
      | none => pure (p.1, p.2)
    else
      pure (p.1, v))

/-- `_resolve_outputs`: template-resolve every output value. -/
def resolve_outputs (e : Event) (userId : Option Str) :
    Except Str (List (Str × Str)) :=
  e.outputs.mapM (fun p => do
    let v ← resolve_template_variables e userId p.2
    pure ((p.1 : Str), v))

/-- The envelope pushed to a service queue after resolution. -/
structure ResolvedPayload where
  job_id : Str
  step_id : Str
  step_name : Str
  microservice : Str
  command_spec : CommandSpec
  inputs : List (Str × Str)
  outputs : List (Str × Str)
  composite_name : Option Str
  deriving DecidableEq, Repr

/-- `resolve_and_prepare`: resolve inputs and outputs, rebuild the
`CommandSpec` (failing on the empty dict), rewrite its placeholders, and
assemble the payload. -/
def resolve_and_prepare (e : Event) (previousOutputs : List (Str × Str))
    (userId : Option Str) : Except Str ResolvedPayload := do
  let ri ← resolve_inputs e previousOutputs userId
  let ro ← resolve_outputs e userId
  match e.command_spec with
  | none => .error (str "ValidationError: program field required")
  | some cs =>
    let rspec := CommandResolver.resolve cs (toPyDict ri) (toPyDict ro)
    .ok { job_id := e.job_id, step_id := e.step_id, step_name := e.step_name,
          microservice := e.microservice, command_spec := rspec,
          inputs := ri, outputs := ro, composite_name := e.composite_name }

end JobStepEvent

/-! ## Job Orchestrator
(backend/modules/job/services/job_orchestrator_service.py), over the store
operations of backend/modules/job/models/job_model.py.  A raised Python
exception is modelled by an `err` field carrying its message: the store
mutations made before the raise are kept, those after it never happen
(the caller, `BackendQueueService.handle_event`, catches and logs). -/

namespace Orchestrator

/-- The MongoDB `jobs` collection. -/
abbrev Store := List Job

/-- `JobModel.get_job` (`find_one` by `_id`). -/
def get_job (db : Store) (jobId : Str) : Option Job :=
  db.find? (fun j => j.job_id = jobId)

/-- `update_one` on the first job matching `_id`. -/
def updateJob (db : Store) (jobId : Str) (f : Job → Job) : Store :=
  match db with
  | [] => []
  | j :: rest =>
    if j.job_id = jobId then f j :: rest else j :: updateJob rest jobId f

/-- Positional (`steps.$`) update of the first step matching `step_id`. -/
def updateFirstStep (steps : List JobStep) (stepId : Str)
    (f : JobStep → JobStep) : List JobStep :=
  match steps with
  | [] => []
  | s :: rest =>
    if s.step_id = stepId then f s :: rest
    else s :: updateFirstStep rest stepId f

/-- The document rewrite of `update_job_status`. -/
def setStatus (st : JobStatus) (j : Job) : Job := { j with status := st }

/-- `JobModel.update_job_status`. -/
def update_job_status (db : Store) (jobId : Str) (st : JobStatus) : Store :=
  updateJob db jobId (setStatus st)

/-- The step rewrite of `update_job_step_status`: set the status and, when
an `outputs` argument is given, the outputs. -/
def setStepFields (status : JobStepStatus)
    (outputs : Option (List (Str × Str))) (s : JobStep) : JobStep :=
  { s with status := status, outputs := outputs.getD s.outputs }

/-- Apply a step rewrite to the first step matching `stepId`. -/
def updateStepsOf (stepId : Str) (f : JobStep → JobStep) (j : Job) : Job :=
  { j with steps := updateFirstStep j.steps stepId f }

/-- `JobModel.update_job_step_status` as the orchestrator calls it.  The
Mongo query requires both `_id` and `steps.step_id` to match, so a missing
step leaves the document untouched (`updateFirstStep` is then the
identity). -/
def update_job_step_status (db : Store) (jobId stepId : Str)
    (status : JobStepStatus) (outputs : Option (List (Str × Str))) : Store :=
  updateJob db jobId (updateStepsOf stepId (setStepFields status outputs))

/-- Modelled from the spec: `JobModel.get_step_outputs` is called by the
orchestrator but absent from the sources; §4.3 specifies it returns the
step's outputs mapping, empty if none. -/
def get_step_outputs (db : Store) (jobId stepId : Str) : List (Str × Str) :=
  match get_job db jobId with
  | none => []
  | some j =>
    match j.steps.find? (fun s => s.step_id = stepId) with
    | some s => s.outputs
    | none => []

/-- An envelope pushed onto a service request queue. -/
structure Push where
  queue : Str
  payload : JobStepEvent.ResolvedPayload
  deriving DecidableEq, Repr

/-- Result of `_dispatch_step`: the store (mutations before a raise are
kept), the pushed envelope if any, and the raised error if any. -/
structure DispatchResult where
  db : Store
  push : Option Push
  err : Option Str
  deriving Repr

/-- The previous-outputs aggregation of `_dispatch_step`: over inbound
transitions, `dict.update` with the stored outputs of the `from` step
(later transitions overriding). -/
def dispatchPrev (db : Store) (job : Job) (step : JobStep) : List (Str × Str) :=
  job.step_transitions.foldl (fun acc t =>
    if t.to_step_id = step.step_id then
      dictUpdate acc (get_step_outputs db job.job_id t.from_step_id)
    else acc) []

/-- The `JobStepEvent` record `_dispatch_step` builds. -/
def dispatchEvent (job : Job) (step : JobStep) (ms : Str) :
    JobStepEvent.Event :=
  { job_id := job.job_id, step_id := step.step_id, step_name := step.name,
    microservice := ms, command_spec := step.command_spec,
    inputs := step.inputs, outputs := step.outputs,
    composite_name := some (get_composite_name step) }

/-- `_dispatch_step`: a step without a (truthy) microservice is skipped
with a log; otherwise the step's status is set to `processing` in the
store first, previous outputs are gathered over inbound transitions, and
the resolved envelope is pushed to `<microservice>_requests` — resolution
failures raise after the status write and before the push. -/
def dispatch_step (db : Store) (job : Job) (step : JobStep) : DispatchResult :=
  if !pyTruthy step.microservice then ⟨db, none, none⟩
  else
    let ms := step.microservice.getD []
    let db1 := update_job_step_status db job.job_id step.step_id .processing none
    match JobStepEvent.resolve_and_prepare (dispatchEvent job step ms)
        (dispatchPrev db1 job step) job.user_id with
    | .error er => ⟨db1, none, some er⟩
    | .ok payload => ⟨db1, some ⟨ms ++ str "_requests", payload⟩, none⟩

/-- `_are_step_inputs_ready`: collect the set of inbound `from_step_id`s;
no dependencies means ready, and otherwise every dependency step must be
found and `complete` (the loop returns `False` at the first failure, which
equals the conjunction). -/
def are_step_inputs_ready (job : Job) (step : JobStep) : Bool :=
  let depIds := (job.step_transitions.filter
    (fun t => t.to_step_id = step.step_id)).map (fun t => t.from_step_id)
  depIds.all (fun d =>
    match job.steps.find? (fun s => s.step_id = d) with
    | some dep => dep.status = .complete
    | none => false)

/-- `StepTransition.apply_mapping` as `_resolve_step_inputs` invokes it: the
source iterates `List[int]` indices over a *list*, but the orchestrator
hands it the step-outputs *dict*; an empty mapping passes the dict
through, an in-range index raises `KeyError` on the dict, and out-of-range
indices are skipped with a warning (all skipped yields the empty list). -/
def apply_mapping (t : StepTransition) (sourceOutputs : List (Str × Str)) :
    Except Str (List (Str × Str)) :=
  if t.output_to_input_mapping = [] then .ok sourceOutputs
  else if t.output_to_input_mapping.all (fun i =>
      if 0 ≤ i ∧ i < (sourceOutputs.length : Int) then false else true) then
    .ok []
  else .error (str "KeyError")

/-- The aggregation loop of `_resolve_step_inputs` over the job's
transitions, threading the accumulated dict. -/
def aggregateInputs (db : Store) (job : Job) (step : JobStep)
    (acc : List (Str × Str)) : List StepTransition →
    Except Str (List (Str × Str))
  | [] => .ok acc
  | t :: rest =>
    if t.to_step_id = step.step_id then
      match apply_mapping t (get_step_outputs db job.job_id t.from_step_id) with
      | .error e => .error e
      | .ok mapped => aggregateInputs db job step (dictUpdate acc mapped) rest
    else aggregateInputs db job step acc rest

/-- `_resolve_step_inputs`: aggregate mapped previous outputs over inbound
transitions (later transitions override) and merge them into the
in-memory step's inputs. -/
def resolve_step_inputs (db : Store) (job : Job) (step : JobStep) :
    Except Str JobStep :=
  match aggregateInputs db job step [] job.step_transitions with
  | .error e => .error e
  | .ok agg => .ok { step with inputs := dictUpdate step.inputs agg }

/-- The collection loop of `_get_ready_steps`: steps whose status is
`processing`, `complete` or `failed` are skipped; a remaining step with
all inputs ready has its inputs resolved (which may raise, aborting the
whole loop) and is collected in order. -/
def readyLoop (db : Store) (job : Job) : List JobStep →
    Except Str (List JobStep)
  | [] => .ok []
  | s :: rest =>
    if s.status = .processing ∨ s.status = .complete ∨ s.status = .failed then
      readyLoop db job rest
    else if are_step_inputs_ready job s then
      match resolve_step_inputs db job s with
      | .error e => .error e
      | .ok s2 =>
        match readyLoop db job rest with
        | .error e => .error e
        | .ok l => .ok (s2 :: l)
    else readyLoop db job rest

/-- `_get_ready_steps`. -/
def get_ready_steps (db : Store) (job : Job) : Except Str (List JobStep) :=
  readyLoop db job job.steps

/-- `_is_job_complete`. -/
def is_job_complete (job : Job) : Bool :=
  job.steps.all (fun s => s.status = .complete)

/-- Result of the status-event handler. -/
structure RunResult where
  db : Store
  pushes : List Push
  err : Option Str
  deriving Repr

/-- The handler's dispatch loop over the ready steps: a raised dispatch
error aborts the remaining iterations, keeping earlier pushes and store
writes. -/
def dispatchLoop (db : Store) (job : Job) : List JobStep → RunResult
  | [] => ⟨db, [], none⟩
  | s :: rest =>
    let r := dispatch_step db job s
    match r.err with
    | some er => ⟨r.db, r.push.toList, some er⟩
    | none =>
      let rr := dispatchLoop r.db job rest
      ⟨rr.db, r.push.toList ++ rr.pushes, rr.err⟩

/-- A status event as read from the wire (`event.get(...)`); `outputs`
defaults to the empty dict. -/
structure StatusEventMsg where
  job_id : Str
  step_id : Str
  status : Str
  outputs : List (Str × Str) := []
  deriving DecidableEq, Repr

/-- `handle_step_status_event`: validate fields, parse the status, apply
it (with outputs) to the store, re-fetch, then branch: `complete`
dispatches every ready step or, when none is ready, marks the job
complete if all steps are; `failed` marks the job failed; anything else
only records the status. -/
def handle_step_status_event (db : Store) (e : StatusEventMsg) : RunResult :=
  if e.job_id.isEmpty || e.step_id.isEmpty || e.status.isEmpty then ⟨db, [], none⟩
  else
    match JobStepStatus.fromStr e.status with
    | none => ⟨db, [], none⟩
    | some status =>
      match get_job db e.job_id with
      | none => ⟨db, [], none⟩
      | some _ =>
        let db1 := update_job_step_status db e.job_id e.step_id status (some e.outputs)
        match get_job db1 e.job_id with
        | none => ⟨db1, [], none⟩
        | some job =>
          if status = .complete then
            match get_ready_steps db1 job with
            | .error er => ⟨db1, [], some er⟩
            | .ok readySteps =>
              if readySteps.isEmpty then
                if is_job_complete job then
                  ⟨update_job_status db1 e.job_id .complete, [], none⟩
                else ⟨db1, [], none⟩
              else dispatchLoop db1 job readySteps
          else if status = .failed then
            ⟨update_job_status db1 e.job_id .failed, [], none⟩
          else ⟨db1, [], none⟩

end Orchestrator

namespace Orchestrator

/-! ### `create_job`
(backend/modules/job/services/job_orchestrator_service.py) -/

/-- One entry of the payload's `steps` list; `command_spec` is
`step_data.get("command_spec", \x7b\x7d)` — `none` stands for a missing or
`program`-less dict, which fails `CommandSpec` validation. -/
structure PayloadStep where
  name : Str
  service : Str
  command_spec : Option CommandSpec := none
  inputs : List (Str × Str) := []
  outputs : List (Str × Str) := []
  deriving DecidableEq, Repr

/-- One entry of the payload's `step_transitions` list.  The mapping is
typed as the `List[int]` the `StepTransition` model declares; a JSON-object
mapping in the payload fails that validation before any of the logic below
runs. -/
structure PayloadTransition where
  from_step_name : Str
  to_step_name : Str
  output_to_input_mapping : List Int := []
  deriving DecidableEq, Repr

/-- A `create_job` payload. -/
structure Payload where
  user_id : Option Str := none
  steps : List PayloadStep := []
  step_transitions : List PayloadTransition := []
  deriving DecidableEq, Repr

/-- Build the `JobStep`s of a payload, enumerating orders from `i` and
drawing fresh step ids from `stepIds` (source: `uuid4` per step). -/
def buildSteps (stepIds : Nat → Str) : Nat → List PayloadStep →
    Except Str (List JobStep)
  | _, [] => .ok []
  | i, ps :: rest =>
    match ps.command_spec with
    | none => .error (str "ValidationError: program field required")
    | some cs => do
      let others ← buildSteps stepIds (i + 1) rest
      .ok ({ name := ps.name, step_id := stepIds i, order := some i,
             command_spec := some cs, status := .pending,
             inputs := ps.inputs, outputs := ps.outputs,
             microservice := some ps.service } :: others)

/-- The `\x7bs.name: s.step_id\x7d` comprehension: on duplicate names the
later step wins. -/
def name_to_id (steps : List JobStep) (n : Str) : Option Str :=
  (steps.reverse.find? (fun s => s.name = n)).map (fun s => s.step_id)

/-- `JobStepStorageService._prepare_job_directory_structure`: without a
truthy `user_id` it only logs; otherwise it template-resolves every output
path of every step (raising on bad cross-step references).  Its directory
creations are filesystem effects outside the store model. -/
def prepare_job_directory_structure (job : Job) : Except Str Unit :=
  if !pyTruthy job.user_id then .ok ()
  else
    job.steps.forM (fun st =>
      st.outputs.forM (fun p => do
        let _ ← PathTemplateResolver.resolve (PathTemplateResolver.jobCtxOf job)
          (some (PathTemplateResolver.stepCtxOf st)) p.2
        pure ()))

/-- The initial dispatch loop of `create_job`: dispatch every step that is
the target of no transition, aborting on a raised dispatch error. -/
def initialDispatchLoop (db : Store) (job : Job) : List JobStep → RunResult
  | [] => ⟨db, [], none⟩
  | s :: rest =>
    if job.step_transitions.any (fun t => t.to_step_id = s.step_id) then
      initialDispatchLoop db job rest
    else
      let r := dispatch_step db job s
      match r.err with
      | some er => ⟨r.db, r.push.toList, some er⟩
      | none =>
        let rr := initialDispatchLoop r.db job rest
        ⟨rr.db, r.push.toList ++ rr.pushes, rr.err⟩

/-- Result of `create_job`: final store, pushed envelopes, the persisted
job snapshot when persistence happened, and the raised error if any. -/
structure CreateResult where
  db : Store
  pushes : List Push
  job : Option Job
  err : Option Str
  deriving Repr

/-- The transition-building loop of `create_job`: resolve both names
through the `name → id` map, dropping transitions with unknown names. -/
def resolvedTransitions (steps : List JobStep) (pts : List PayloadTransition) :
    List StepTransition :=
  pts.filterMap (fun t =>
    match name_to_id steps t.from_step_name, name_to_id steps t.to_step_name with
    | some fid, some tid => some ⟨fid, tid, t.output_to_input_mapping⟩
    | _, _ => none)

/-- The `Job` object `create_job` persists. -/
def builtJob (jobId : Str) (userId : Option Str) (steps : List JobStep)
    (pts : List PayloadTransition) : Job :=
  { job_id := jobId, user_id := userId, status := .pending,
    steps := steps, step_transitions := resolvedTransitions steps pts }

/-- `create_job`: build steps (orders are list positions) and transitions
(dropping those whose names don't resolve), persist the job as `pending`,
pre-create directories, then dispatch every step with no inbound
transition.  No acyclicity check appears anywhere. -/
def create_job (db : Store) (jobId : Str) (stepIds : Nat → Str)
    (p : Payload) : CreateResult :=
  match buildSteps stepIds 0 p.steps with
  | .error er => ⟨db, [], none, some er⟩
  | .ok steps =>
    let job : Job := builtJob jobId p.user_id steps p.step_transitions
    if (get_job db jobId).isSome then
      ⟨db, [], none, some (str "DuplicateKeyError")⟩
    else
      let db1 := db ++ [job]
      match prepare_job_directory_structure job with
      | .error er => ⟨db1, [], some job, some er⟩
      | .ok _ =>
        let r := initialDispatchLoop db1 job job.steps
        ⟨r.db, r.pushes, some job, r.err⟩

end Orchestrator

/-! ## Legacy Job Orchestrator
(backend/modules/job/job_orchestrator_service.py) — the revision the HTTP
controller's retry endpoint calls.  Its step dicts use `JobStepState`
(same seven values, modelled by `JobStepStatus`). -/

namespace Legacy

/-- A step dict of the legacy pipeline (`service`/`operation`/`parameters`
scheme, list-valued `inputs`/`outputs`). -/
structure LStep where
  step_id : Str
  name : Str
  order : Nat
  service : Str
  operation : Option Str := none
  parameters : List (Str × JVal) := []
  inputs : List Str := []
  outputs : List Str := []
  status : JobStepStatus := .pending
  error_message : Option Str := none
  deriving DecidableEq, Repr

/-- A legacy job document. -/
structure LJob where
  job_id : Str
  status : JobStatus := .pending
  steps : List LStep := []
  deriving DecidableEq, Repr

/-- The legacy store. -/
abbrev LStore := List LJob

/-- `JobModel.get_job`. -/
def get_job (db : LStore) (jobId : Str) : Option LJob :=
  db.find? (fun j => j.job_id = jobId)

/-- `update_one` on the first matching job. -/
def updateJob (db : LStore) (jobId : Str) (f : LJob → LJob) : LStore :=
  match db with
  | [] => []
  | j :: rest =>
    if j.job_id = jobId then f j :: rest else j :: updateJob rest jobId f

/-- Positional update of the first matching step. -/
def updateFirstStep (steps : List LStep) (stepId : Str)
    (f : LStep → LStep) : List LStep :=
  match steps with
  | [] => []
  | s :: rest =>
    if s.step_id = stepId then f s :: rest
    else s :: updateFirstStep rest stepId f

/-- The document rewrite of `update_job_status`. -/
def setJobStatus (st : JobStatus) (j : LJob) : LJob := { j with status := st }

/-- `JobModel.update_job_status`. -/
def update_job_status (db : LStore) (jobId : Str) (st : JobStatus) : LStore :=
  updateJob db jobId (setJobStatus st)

/-- The step rewrite of `update_job_step_status`: outputs only when given;
`error_message` set when given, cleared when `clear_error`, untouched
otherwise. -/
def setStepFields (status : JobStepStatus) (outputs : Option (List Str))
    (errorMessage : Option Str) (clearError : Bool) (s : LStep) : LStep :=
  { s with status := status,
           outputs := outputs.getD s.outputs,
           error_message := match errorMessage with
             | some m => some m
             | none => if clearError then none else s.error_message }

/-- Apply a step rewrite to the first step matching `stepId`. -/
def updateStepsOf (stepId : Str) (f : LStep → LStep) (j : LJob) : LJob :=
  { j with steps := updateFirstStep j.steps stepId f }

/-- `JobModel.update_job_step_status` with its full signature. -/
def update_job_step_status (db : LStore) (jobId stepId : Str)
    (status : JobStepStatus) (outputs : Option (List Str))
    (errorMessage : Option Str) (clearError : Bool) : LStore :=
  updateJob db jobId
    (updateStepsOf stepId (setStepFields status outputs errorMessage clearError))

/-- The causes behind `retry_job`'s raised `ValueError`s (each re-wrapped
as `Exception("Job retry failed: ...")`); the spec's taxonomy names the
`complete`-status and all-steps-complete causes `AlreadyComplete` and the
`processing`-status cause `InFlight`. -/
inductive RetryErr where
  | notFound | alreadyComplete | inFlight | noIncompleteSteps | serviceRequired
  deriving DecidableEq, Repr

/-- An envelope pushed to `<service>_queue` by the legacy pipeline. -/
structure LPush where
  queue : Str
  step_id : Str
  step_name : Str
  inputs : List Str
  deriving DecidableEq, Repr

/-- Result of a legacy operation: store (writes before a raise are kept),
pushes, raised error. -/
structure LRunResult where
  db : LStore
  pushes : List LPush
  err : Option RetryErr
  deriving Repr

/-- `_find_resume_step`: the first step, in list order, whose status is
not `complete`. -/
def find_resume_step (jd : LJob) : Option LStep :=
  jd.steps.find? (fun s => !(s.status = .complete))

/-- `_collect_previous_outputs`: scan indices `current-1 … 0` for the
first `complete` step and return its outputs (indices past the list — a
Python `IndexError`, impossible when orders equal list positions — are
skipped). -/
def collect_previous_outputs (jd : LJob) (currentIdx : Nat) : List Str :=
  match (List.range currentIdx).reverse.findSome? (fun i =>
    match jd.steps.get? i with
    | some s => if s.status = .complete then some s.outputs else none
    | none => none) with
  | some outs => outs
  | none => []

/-- `_merge_inputs`: original inputs followed by the previous outputs. -/
def merge_inputs (orig prev : List Str) : List Str := orig ++ prev

/-- `_start_specific_step`: collect previous outputs, set the step
`processing` in the store, then push to `<service>_queue`
(`_get_service_queue` raises first when the service name is empty; the
`processing` write has already happened by then). -/
def start_specific_step (db : LStore) (jd : LJob) (sd : LStep) : LRunResult :=
  let prev := collect_previous_outputs jd sd.order
  let db1 := update_job_step_status db jd.job_id sd.step_id .processing
    none none false
  if sd.service.isEmpty then ⟨db1, [], some .serviceRequired⟩
  else ⟨db1, [⟨sd.service ++ str "_queue", sd.step_id, sd.name,
    merge_inputs sd.inputs prev⟩], none⟩

/-- `retry_job`: fetch; refuse `complete` and `processing` jobs; find the
first non-complete step; set the job `processing`; reset that step to
`pending` with its error cleared; start it. -/
def retry_job (db : LStore) (jobId : Str) : LRunResult :=
  match get_job db jobId with
  | none => ⟨db, [], some .notFound⟩
  | some jd =>
    if jd.status = .complete then ⟨db, [], some .alreadyComplete⟩
    else if jd.status = .processing then ⟨db, [], some .inFlight⟩
    else
      match find_resume_step jd with
      | none => ⟨db, [], some .noIncompleteSteps⟩
      | some rs =>
        let db1 := update_job_status db jobId .processing
        let db2 := update_job_step_status db1 jobId rs.step_id .pending
          none none true
        start_specific_step db2 jd rs

end Legacy

/-! ## Worker output validation
(shared/modules/queue/command_executor_queue_service.py) -/

namespace CommandExecutor

/-- The filesystem as the validator observes it: the existing paths with
their sizes (`os.path.exists` / `os.path.getsize`). -/
abbrev FileSys := List (Str × Nat)

/-- Does the path exist? -/
def path_exists (fs : FileSys) (path : Str) : Bool :=
  (fs.find? (fun p => p.1 = path)).isSome

/-- Does the path exist with non-zero size? -/
def exists_nonzero (fs : FileSys) (path : Str) : Bool :=
  match fs.find? (fun p => p.1 = path) with
  | some p => decide (0 < p.2)
  | none => false

/-- `_validate_output_files`: an empty output map passes; otherwise the
created files are those existing with non-zero size, and `RuntimeError`
is raised exactly when none was created (missing files next to created
ones are only warned about). -/
def validate_output_files (outputMapping : List (Str × Str)) (fs : FileSys) :
    Except Str Unit :=
  if outputMapping.isEmpty then .ok ()
  else
    let created := outputMapping.filter (fun p => exists_nonzero fs p.2)
    if created.isEmpty then
      .error (str "Command executed successfully but created no output files")
    else .ok ()

/-- `_upload_output_files`: skip missing paths with a warning; strip the
storage root from the path and the braces from the placeholder. -/
def upload_output_files (outputMapping : List (Str × Str)) (fs : FileSys) :
    List (Str × Str) :=
  outputMapping.filterMap (fun p =>
    if !path_exists fs p.2 then none
    else
      let rel := replaceAll (STORAGE_ROOT ++ str "/") [] p.2
      let nm := replaceAll [rbrace] [] (replaceAll [lbrace] [] p.1)
      some (nm, rel))

/-- The status envelope the worker emits for the step. -/
inductive StatusOutcome where
  | complete (outputs : List (Str × Str))
  | failed (msg : Str)
  deriving DecidableEq, Repr

/-- The tail of `_process_step_message` after a successful subprocess run:
validate the outputs, upload them and report `complete`; a raised
validation error is caught and reported as `failed`. -/
def process_after_execution (outputMapping : List (Str × Str))
    (fs : FileSys) : StatusOutcome :=
  match validate_output_files outputMapping fs with
  | .error e => .failed (str "Failed to execute command: " ++ e)
  | .ok _ => .complete (upload_output_files outputMapping fs)

end CommandExecutor

/-! ## Derived forms of the orchestrator's store mutations

Abbreviations for the iterated store/step rewrites performed by the
status-event handler's dispatch loop, used to state its effect in closed
form. -/

namespace Orchestrator

/-- The job-level rewrite applied by the dispatch loop for the dispatched
steps `l` (those passing the condition `c`, in the code every step with a
truthy microservice): the accumulated effect on one stored step. -/
def markFold (c : JobStep → Bool) (l : List JobStep) (x : JobStep) : JobStep :=
  l.foldl (fun x s =>
    if c s ∧ x.step_id = s.step_id then setStepFields .processing none x
    else x) x

/-- The accumulated effect of the dispatch loop on a steps list. -/
def stepsFold (c : JobStep → Bool) (l : List JobStep) (xs : List JobStep) :
    List JobStep :=
  l.foldl (fun xs s =>
    if c s then updateFirstStep xs s.step_id (setStepFields .processing none)
    else xs) xs

/-- The accumulated effect of the dispatch loop on one job document. -/
def jobFold (c : JobStep → Bool) (l : List JobStep) (j : Job) : Job :=
  l.foldl (fun j s =>
    if c s then updateStepsOf s.step_id (setStepFields .processing none) j
    else j) j

/-- The accumulated effect of the dispatch loop on the store, for the job
`J`. -/
def storeFold (c : JobStep → Bool) (J : Str) (l : List JobStep) (d : Store) :
    Store :=
  l.foldl (fun d s =>
    if c s then update_job_step_status d J s.step_id .processing none
    else d) d

/-- Two stores holding the same steps for every job id (they may differ in
job statuses). -/
def StepsEq (dbA dbB : Store) : Prop :=
  ∀ jid, (get_job dbA jid).map Job.steps = (get_job dbB jid).map Job.steps

end Orchestrator

/-! ## Concrete fixtures for witnesses and counterexamples -/

/-- A supply of fresh step ids (stands for the source's `uuid4`). -/
def sidFun (i : Nat) : Str := str "sid-" ++ (toString i).data

/-- Resolver context of a job whose step `A` outputs the literal template
token `\x7b\x7bjob_id\x7d\x7d`. -/
def cjob7 : PathTemplateResolver.JobCtx :=
  { job_id := str "J", user_id := none,
    steps := [{ name := str "a", step_id := str "A",
                outputs := [(str "out", dbl (str "job_id"))] }] }

/-- Resolver context of the controller docstring's example: a step *named*
`convert_audio` (its generated id is something else) with an
`output_file` output. -/
def cjob6 : PathTemplateResolver.JobCtx :=
  { job_id := str "J", user_id := none,
    steps := [{ name := str "convert_audio", step_id := str "37f0-aa11",
                outputs := [(str "output_file", str "users/u1/a.wav")] }] }

/-- A dependency-free step whose status is `running`. -/
def stepC1 : JobStep :=
  { name := str "s", step_id := str "s1", status := .running,
    command_spec := some { program := str "p" },
    microservice := some (str "m") }

/-- A job with a single dependency-free step whose status is `running`. -/
def jobC1 : Job :=
  { job_id := str "j1", steps := [stepC1] }

/-- A failed job with a failed step `b`, an in-flight sibling `c`, and a
pending step `d` depending only on `c`. -/
def jobC5 : Job :=
  { job_id := str "j5", status := .failed, user_id := none,
    steps := [
      { name := str "B", step_id := str "b", status := .failed,
        command_spec := some { program := str "p" },
        microservice := some (str "m") },
      { name := str "C", step_id := str "c", status := .processing,
        command_spec := some { program := str "p" },
        microservice := some (str "m") },
      { name := str "D", step_id := str "d", status := .pending,
        command_spec := some { program := str "p" },
        microservice := some (str "m") }],
    step_transitions := [{ from_step_id := str "c", to_step_id := str "d" }] }

/-- The sibling-completion event for `jobC5`. -/
def evC5 : Orchestrator.StatusEventMsg :=
  { job_id := str "j5", step_id := str "c", status := str "complete",
    outputs := [(str "o", str "x")] }

/-- A two-step chain `a → b` with `a` in flight. -/
def jobC2 : Job :=
  { job_id := str "j2", status := .processing, user_id := none,
    steps := [
      { name := str "A", step_id := str "a", status := .processing,
        command_spec := some { program := str "p" },
        microservice := some (str "m") },
      { name := str "B", step_id := str "b", status := .pending,
        command_spec := some { program := str "q" },
        microservice := some (str "m") }],
    step_transitions := [{ from_step_id := str "a", to_step_id := str "b" }] }

/-- The completion event for `jobC2`'s step `a`. -/
def evC2 : Orchestrator.StatusEventMsg :=
  { job_id := str "j2", step_id := str "a", status := str "complete",
    outputs := [(str "o", str "v")] }

/-- A fan-out `a → s1, a → s2` where `s1` carries an input template with an
unresolvable cross-step reference, so dispatching `s1` raises. -/
def jobC2b : Job :=
  { job_id := str "j2b", status := .processing, user_id := none,
    steps := [
      { name := str "A", step_id := str "a", status := .processing,
        command_spec := some { program := str "p" },
        microservice := some (str "m") },
      { name := str "S1", step_id := str "s1", status := .pending,
        inputs := [(str "src", dbl (str "steps.x.outputs.y"))],
        command_spec := some { program := str "q" },
        microservice := some (str "m") },
      { name := str "S2", step_id := str "s2", status := .pending,
        command_spec := some { program := str "r" },
        microservice := some (str "m") }],
    step_transitions := [{ from_step_id := str "a", to_step_id := str "s1" },
                         { from_step_id := str "a", to_step_id := str "s2" }] }

/-- The completion event for `jobC2b`'s step `a`. -/
def evC2b : Orchestrator.StatusEventMsg :=
  { job_id := str "j2b", step_id := str "a", status := str "complete" }

/-- A failed legacy job: `s0` complete with outputs, `s1` failed with an
error message, `s2` pending. -/
def ljobC4 : Legacy.LJob :=
  { job_id := str "L", status := .failed,
    steps := [
      { step_id := str "s0", name := str "A", order := 0, service := str "x",
        status := .complete, outputs := [str "o0"] },
      { step_id := str "s1", name := str "B", order := 1, service := str "y",
        status := .failed, error_message := some (str "boom"),
        inputs := [str "i1"] },
      { step_id := str "s2", name := str "C", order := 2,
        service := str "z" }] }

/-- The step of `ljobC4` that `find_resume_step` picks: the first
non-complete one. -/
def rsC4 : Legacy.LStep :=
  { step_id := str "s1", name := str "B", order := 1, service := str "y",
    status := .failed, error_message := some (str "boom"),
    inputs := [str "i1"] }

/-- A payload whose two transitions form the cycle `A → B → A`. -/
def payloadC3 : Orchestrator.Payload :=
  { user_id := none,
    steps := [
      { name := str "A", service := str "x",
        command_spec := some { program := str "p" } },
      { name := str "B", service := str "y",
        command_spec := some { program := str "q" } }],
    step_transitions := [
      { from_step_name := str "A", to_step_name := str "B" },
      { from_step_name := str "B", to_step_name := str "A" }] }

/-- A step whose single flag `a` has value `"70766"`. -/
def stepC8a : JobStep :=
  { name := str "n1", step_id := str "id1", order := some 1,
    command_spec := some { program := str "prog",
                           flags := [(str "a", .s (str "70766"))] },
    microservice := some (str "svc") }

/-- `stepC8a` with the flag value changed to `"81102"`. -/
def stepC8b : JobStep :=
  { name := str "n1", step_id := str "id1", order := some 1,
    command_spec := some { program := str "prog",
                           flags := [(str "a", .s (str "81102"))] },
    microservice := some (str "svc") }

/-- A step with two flags in one key order. -/
def stepC8c : JobStep :=
  { name := str "c", step_id := str "idc", order := some 2,
    command_spec := some
      { program := str "prog",
        flags := [(str "-i", .s (str "in.wav")),
                  (str "-o", .s (str "out.wav"))] },
    microservice := some (str "svc") }

/-- `stepC8c` with its flags listed in the other key order and different
incidental fields. -/
def stepC8d : JobStep :=
  { name := str "d", step_id := str "idd", order := some 2,
    status := .complete,
    command_spec := some
      { program := str "prog",
        flags := [(str "-o", .s (str "out.wav")),
                  (str "-i", .s (str "in.wav"))] },
    microservice := some (str "svc") }

/-- The flags `get_composite_name` hashes: those of the command spec, or
none. -/
def flagsOf (s : JobStep) : List (Str × JVal) :=
  match s.command_spec with
  | none => []
  | some cs => cs.flags

/-! ## General lemmas -/

theorem hasSub_cons (pat : Str) (c : Char) (rest : Str) :
    hasSub pat (c :: rest) = (pat.isPrefixOf (c :: rest) || hasSub pat rest) :=
  rfl

theorem isPrefixOf_trans {a b c : Str} (h1 : a.isPrefixOf b = true)
    (h2 : b.isPrefixOf c = true) : a.isPrefixOf c = true := by
  rw [List.isPrefixOf_iff_prefix] at h1 h2 ⊢
  exact h1.trans h2

theorem replaceAllAux_id {old new pat : Str}
    (hp : pat.isPrefixOf old = true) :
    ∀ (fuel : Nat) (s : Str), hasSub pat s = false →
      replaceAllAux old new fuel s = s := by
  intro fuel
  induction fuel with
  | zero => intro s _; rfl
  | succ n ih =>
    intro s hs
    match s with
    | [] => rfl
    | c :: rest =>
      rw [hasSub_cons] at hs
      obtain ⟨h1, h2⟩ := Bool.or_eq_false_iff.mp hs
      have hop : old.isPrefixOf (c :: rest) = false := by
        cases h : old.isPrefixOf (c :: rest)
        · rfl
        · rw [isPrefixOf_trans hp h] at h1; exact h1
      simp [replaceAllAux, hop, ih rest h2]

theorem replaceAll_id {old new s pat : Str} (hp : pat.isPrefixOf old = true)
    (hs : hasSub pat s = false) : replaceAll old new s = s :=
  replaceAllAux_id hp s.length s hs

theorem opBraces_isPrefixOf_dbl (x : Str) :
    opBraces.isPrefixOf (dbl x) = true := by
  simp [opBraces, dbl, List.isPrefixOf]

theorem endsWith_clBraces_dbl (x : Str) :
    endsWithStr clBraces (dbl x) = true := by
  simp [endsWithStr, clBraces, dbl, List.isPrefixOf]

theorem opBraces_isPrefixOf_stepsMarker :
    opBraces.isPrefixOf (lbrace :: lbrace :: str "steps.") = true := by
  simp [opBraces, List.isPrefixOf]

theorem parseStepRef_none {s : Str} (h : hasSub opBraces s = false) :
    PathTemplateResolver.parseStepRef s = none := by
  have hpre : (lbrace :: lbrace :: str "steps.").isPrefixOf s = false := by
    cases hp : (lbrace :: lbrace :: str "steps.").isPrefixOf s
    · rfl
    · have hob := isPrefixOf_trans opBraces_isPrefixOf_stepsMarker hp
      match s with
      | [] => simp [opBraces, List.isPrefixOf] at hob
      | c :: rest =>
        rw [hasSub_cons, hob] at h
        simp at h
  simp [PathTemplateResolver.parseStepRef, hpre]

theorem stepRefsAux_id (job : PathTemplateResolver.JobCtx) :
    ∀ (fuel : Nat) (s : Str), hasSub opBraces s = false →
      PathTemplateResolver.stepRefsAux job fuel s = .ok s := by
  intro fuel
  induction fuel with
  | zero => intro s _; rfl
  | succ n ih =>
    intro s hs
    match s with
    | [] => rfl
    | c :: rest =>
      have h2 : hasSub opBraces rest = false := by
        rw [hasSub_cons] at hs
        exact (Bool.or_eq_false_iff.mp hs).2
      simp [PathTemplateResolver.stepRefsAux, parseStepRef_none hs,
        ih rest h2]

theorem resolve_step_references_id (job : PathTemplateResolver.JobCtx)
    (s : Str) (h : hasSub opBraces s = false) :
    PathTemplateResolver.resolve_step_references job s = .ok s :=
  stepRefsAux_id job s.length s h

theorem resolve_fixpoint (job : PathTemplateResolver.JobCtx)
    (step : Option PathTemplateResolver.StepCtx) (s : Str)
    (h : hasSub opBraces s = false) :
    PathTemplateResolver.resolve job step s = .ok s := by
  simp only [PathTemplateResolver.resolve]
  rw [replaceAll_id (opBraces_isPrefixOf_dbl (str "job_id")) h]
  have e2 : (if pyTruthy job.user_id = true then
      replaceAll (dbl (str "user_id")) (job.user_id.getD []) s else s) = s := by
    split
    · exact replaceAll_id (opBraces_isPrefixOf_dbl _) h
    · rfl
  rw [e2]
  cases step with
  | none => exact resolve_step_references_id job s h
  | some sc =>
    show PathTemplateResolver.resolve_step_references job
        (replaceAll (dbl (str "composite_name")) sc.composite_name
          (replaceAll (dbl (str "step_id")) sc.step_id s)) = Except.ok s
    rw [replaceAll_id (opBraces_isPrefixOf_dbl _) h,
        replaceAll_id (opBraces_isPrefixOf_dbl _) h]
    exact resolve_step_references_id job s h

/-! ## Claims -/

/-- C7 (counterexample): resolution is not idempotent.  With a step `A`
whose output value is the literal token `\x7b\x7bjob_id\x7d\x7d`, resolving
`\x7b\x7bsteps.A.outputs.out\x7d\x7d` once yields that token, and resolving
the result again expands it to the job id. -/
theorem c7_counterexample :
    PathTemplateResolver.resolve cjob7 none (dbl (str "steps.A.outputs.out")) =
      .ok (dbl (str "job_id")) ∧
    PathTemplateResolver.resolve cjob7 none (dbl (str "job_id")) =
      .ok (str "J") ∧
    str "J" ≠ dbl (str "job_id") :=
  ⟨rfl, rfl, by decide⟩

/-- C7 (amended): template resolution is single-pass but not idempotent in
general; re-resolving is the identity exactly when the first result is
resolution-free, in particular whenever it contains no `\x7b\x7b`
occurrence. -/
theorem c7_amended (job : PathTemplateResolver.JobCtx)
    (step : Option PathTemplateResolver.StepCtx) (t r : Str)
    (h1 : PathTemplateResolver.resolve job step t = .ok r)
    (h2 : hasSub opBraces r = false) :
    (PathTemplateResolver.resolve job step t).bind
      (PathTemplateResolver.resolve job step) =
      PathTemplateResolver.resolve job step t := by
  rw [h1]
  show PathTemplateResolver.resolve job step r = .ok r
  exact resolve_fixpoint job step r h2

/-- C7 (witness): a template without braces resolves to itself and
re-resolving it is stable. -/
theorem c7_witness :
    (PathTemplateResolver.resolve cjob7 none (str "users/u1/out.wav")).bind
      (PathTemplateResolver.resolve cjob7 none) =
      PathTemplateResolver.resolve cjob7 none (str "users/u1/out.wav") :=
  c7_amended cjob7 none (str "users/u1/out.wav") (str "users/u1/out.wav")
    rfl rfl

/-- C6: the resolver matches the captured step reference against
`step_id`, not `name`.  On a job holding a step *named* `convert_audio`
with an `output_file` output (the controller docstring's own example), the
template raises `Unknown step`, while the same reference written with the
generated step id resolves. -/
theorem c6_theorem :
    (∃ s ∈ cjob6.steps, s.name = str "convert_audio" ∧
      lookupStr s.outputs (str "output_file") = some (str "users/u1/a.wav")) ∧
    PathTemplateResolver.resolve cjob6 none
        (dbl (str "steps.convert_audio.outputs.output_file")) =
      .error (str "Unknown step convert_audio") ∧
    PathTemplateResolver.resolve cjob6 none
        (dbl (str "steps.37f0-aa11.outputs.output_file")) =
      .ok (str "users/u1/a.wav") :=
  ⟨by decide, rfl, rfl⟩

/-- C9: after execution the worker fails the step iff the declared output
map is non-empty and none of its paths exists with non-zero size; when at
least one exists, the step completes even if others are missing. -/
theorem c9_theorem (m : List (Str × Str)) (fs : CommandExecutor.FileSys) :
    ((∃ msg, CommandExecutor.process_after_execution m fs = .failed msg) ↔
      (m ≠ [] ∧ ∀ p ∈ m, CommandExecutor.exists_nonzero fs p.2 = false)) ∧
    ((∃ p ∈ m, CommandExecutor.exists_nonzero fs p.2 = true) →
      ∃ outs, CommandExecutor.process_after_execution m fs = .complete outs) := by
  unfold CommandExecutor.process_after_execution
    CommandExecutor.validate_output_files
  by_cases hm : m = []
  · subst hm
    simp
  · rw [if_neg (by simpa [List.isEmpty_iff] using hm)]
    by_cases hc : (m.filter (fun p => CommandExecutor.exists_nonzero fs p.2)) = []
    · rw [if_pos (by simpa [List.isEmpty_iff] using hc)]
      constructor
      · constructor
        · intro _
          exact ⟨hm, by simpa using List.filter_eq_nil_iff.mp hc⟩
        · intro _
          exact ⟨_, rfl⟩
      · intro ⟨p, hp, hpz⟩
        exact absurd hpz (by simpa using List.filter_eq_nil_iff.mp hc p hp)
    · rw [if_neg (by simpa [List.isEmpty_iff] using hc)]
      constructor
      · constructor
        · intro ⟨msg, hmsg⟩
          exact absurd hmsg (by simp)
        · intro ⟨_, hall⟩
          exact absurd (List.filter_eq_nil_iff.mpr (by simpa using hall)) hc
      · intro _
        exact ⟨_, rfl⟩

theorem dropWhile_eq_self_of_all_false {p : Char → Bool} {l : Str}
    (h : ∀ c ∈ l, p c = false) : l.dropWhile p = l := by
  cases l with
  | nil => rfl
  | cons a l =>
    rw [List.dropWhile_cons, if_neg (by simp [h a (List.mem_cons_self a l)])]

theorem stripChars_dbl {n : Str} (hne : n ≠ [])
    (hbr : ∀ c ∈ n, isBrace c = false) :
    stripChars isBrace (dbl n) = n := by
  obtain ⟨c, n', rfl⟩ : ∃ c n', n = c :: n' := by
    cases n with
    | nil => exact absurd rfl hne
    | cons c n' => exact ⟨c, n', rfl⟩
  have hc : isBrace c = false := hbr c (List.mem_cons_self c n')
  unfold stripChars
  have h1 : List.dropWhile isBrace (dbl (c :: n')) =
      (c :: n') ++ [rbrace, rbrace] := by
    show List.dropWhile isBrace
      (lbrace :: lbrace :: ((c :: n') ++ [rbrace, rbrace])) = _
    rw [List.dropWhile_cons, if_pos (by decide), List.dropWhile_cons,
      if_pos (by decide), List.cons_append, List.dropWhile_cons, if_neg (by simp [hc])]
  rw [h1, List.reverse_append]
  have h2 : List.dropWhile isBrace
      ([rbrace, rbrace].reverse ++ (c :: n').reverse) =
      (c :: n').reverse := by
    show List.dropWhile isBrace (rbrace :: rbrace :: (c :: n').reverse) = _
    rw [List.dropWhile_cons, if_pos (by decide), List.dropWhile_cons,
      if_pos (by decide)]
    exact dropWhile_eq_self_of_all_false (fun x hx =>
      hbr x (List.mem_reverse.mp hx))
  rw [h2, List.reverse_reverse]

/-- C10: in `CommandResolver`, a placeholder-shaped value whose `inputs`
binding is falsy (absent, `None`, or the empty string) falls through to
`outputs`; when that binding is falsy too, the literal placeholder itself
is returned.  The result is never the empty string, so an empty-string
path bound to a placeholder is never substituted into the resolved spec,
whose flags and args are exactly the per-value rewrites. -/
theorem c10_theorem (inputs outputs : PyDict) (n : Str)
    (hne : n ≠ [])
    (hbr : ∀ c ∈ n, isBrace c = false)
    (htr : stripChars isSpaceChar n = n)
    (hin : pyTruthy (pyGet inputs n) = false) :
    (CommandResolver.replace_placeholders inputs outputs (dbl n) =
      (if pyTruthy (pyGet outputs n) then (pyGet outputs n).getD []
       else dbl n)) ∧
    CommandResolver.replace_placeholders inputs outputs (dbl n) ≠ [] ∧
    (∀ spec : CommandSpec,
      (CommandResolver.resolve spec inputs outputs).args =
        spec.args.map (CommandResolver.replace_placeholders inputs outputs) ∧
      (CommandResolver.resolve spec inputs outputs).flags =
        spec.flags.map (fun p =>
          (p.1, CommandResolver.replaceVal inputs outputs p.2))) := by
  have hstart : startsWithStr opBraces (dbl n) = true := opBraces_isPrefixOf_dbl n
  have hkey : stripChars isSpaceChar (stripChars isBrace (dbl n)) = n := by
    rw [stripChars_dbl hne hbr, htr]
  have hmain : CommandResolver.replace_placeholders inputs outputs (dbl n) =
      (if pyTruthy (pyGet outputs n) then (pyGet outputs n).getD []
       else dbl n) := by
    unfold CommandResolver.replace_placeholders
    rw [if_pos (by rw [hstart, endsWith_clBraces_dbl n]; rfl)]
    rw [hkey]
    simp [hin]
  refine ⟨hmain, ?_, fun spec => ⟨rfl, rfl⟩⟩
  rw [hmain]
  split
  · next hout =>
    match hv : pyGet outputs n with
    | none => rw [hv] at hout; exact absurd hout (by simp [pyTruthy])
    | some s =>
      rw [hv] at hout
      simpa [pyTruthy, List.isEmpty_iff] using hout
  · simp [dbl]

/-- C10 (witness): with `in` bound to the empty string in `inputs`, the
placeholder falls through to `outputs` when that has a truthy binding and
otherwise stays literal. -/
theorem c10_witness :
    CommandResolver.replace_placeholders [(str "in", some [])] []
        (dbl (str "in")) = dbl (str "in") ∧
    CommandResolver.replace_placeholders [(str "in", some [])]
        [(str "in", some (str "pp"))] (dbl (str "in")) = str "pp" := by
  constructor
  · rw [(c10_theorem [(str "in", some [])] [] (str "in") (by decide)
      (by decide) (by decide) (by decide)).1]
    decide
  · rw [(c10_theorem [(str "in", some [])] [(str "in", some (str "pp"))]
      (str "in") (by decide) (by decide) (by decide) (by decide)).1]
    decide

set_option maxRecDepth 10000

theorem charEq_of_toNat_eq {a b : Char} (h : a.toNat = b.toNat) : a = b :=
  Char.ext (UInt32.toNat.inj h)

theorem strLt_asymm : ∀ {a b : Str}, strLt a b = true → strLt b a = false
  | [], [], h => by simp [strLt] at h
  | [], _ :: _, _ => by simp [strLt]
  | _ :: _, [], h => by simp [strLt] at h
  | a :: as, b :: bs, h => by
    simp only [strLt] at h ⊢
    by_cases hab : a.toNat < b.toNat
    · have hba : ¬b.toNat < a.toNat := by omega
      have hne : b ≠ a := fun e => by rw [e] at hab; omega
      simp [hba, hne]
    · rw [if_neg hab] at h
      by_cases heq : a = b
      · subst heq
        rw [if_pos rfl] at h
        simp [hab, strLt_asymm h]
      · rw [if_neg heq] at h
        exact absurd h (by simp)

theorem strLt_trans : ∀ {a b c : Str},
    strLt a b = true → strLt b c = true → strLt a c = true
  | [], [], _, h1, _ => by simp [strLt] at h1
  | [], _ :: _, [], _, h2 => by simp [strLt] at h2
  | [], _ :: _, _ :: _, _, _ => by simp [strLt]
  | _ :: _, [], _, h1, _ => by simp [strLt] at h1
  | _ :: _, _ :: _, [], _, h2 => by simp [strLt] at h2
  | a :: as, b :: bs, c :: cs, h1, h2 => by
    simp only [strLt] at h1 h2 ⊢
    by_cases hab : a.toNat < b.toNat
    · by_cases hbc : b.toNat < c.toNat
      · simp [show a.toNat < c.toNat by omega]
      · rw [if_neg hbc] at h2
        by_cases hbceq : b = c
        · subst hbceq; simp [hab]
        · rw [if_neg hbceq] at h2; exact absurd h2 (by simp)
    · rw [if_neg hab] at h1
      by_cases habeq : a = b
      · subst habeq
        rw [if_pos rfl] at h1
        by_cases hbc : a.toNat < c.toNat
        · simp [hbc]
        · rw [if_neg hbc] at h2 ⊢
          by_cases haceq : a = c
          · subst haceq
            rw [if_pos rfl] at h2 ⊢
            exact strLt_trans h1 h2
          · rw [if_neg haceq] at h2; exact absurd h2 (by simp)
      · rw [if_neg habeq] at h1; exact absurd h1 (by simp)

theorem strLt_connex : ∀ {a b : Str},
    strLt a b = false → strLt b a = false → a = b
  | [], [], _, _ => rfl
  | [], _ :: _, h1, _ => by simp [strLt] at h1
  | _ :: _, [], _, h2 => by simp [strLt] at h2
  | a :: as, b :: bs, h1, h2 => by
    simp only [strLt] at h1 h2
    by_cases hab : a.toNat < b.toNat
    · simp [hab] at h1
    · rw [if_neg hab] at h1
      by_cases hba : b.toNat < a.toNat
      · simp [hba] at h2
      · rw [if_neg hba] at h2
        have heq : a = b := charEq_of_toNat_eq (by omega)
        subst heq
        rw [if_pos rfl] at h1 h2
        rw [strLt_connex h1 h2]

/-- Transitivity of the "not greater" key order used by the sort. -/
theorem keyLe_trans {p q r : Str × JVal} (h1 : strLt q.1 p.1 = false)
    (h2 : strLt r.1 q.1 = false) : strLt r.1 p.1 = false := by
  by_cases hrp : strLt r.1 p.1 = true
  · by_cases hpq : strLt p.1 q.1 = true
    · exact absurd (strLt_trans hrp hpq) (by simp [h2])
    · have hpq2 : strLt p.1 q.1 = false := by simpa using hpq
      have heq : p.1 = q.1 := strLt_connex hpq2 h1
      rw [heq] at hrp
      exact absurd hrp (by simp [h2])
  · simpa using hrp

theorem insertByKey_perm (p : Str × JVal) (l : List (Str × JVal)) :
    (insertByKey p l).Perm (p :: l) := by
  induction l with
  | nil => exact List.Perm.refl _
  | cons q rest ih =>
    unfold insertByKey
    split
    · exact (List.Perm.cons q ih).trans (List.Perm.swap p q rest)
    · exact List.Perm.refl _

theorem sortByKey_perm (l : List (Str × JVal)) : (sortByKey l).Perm l := by
  induction l with
  | nil => exact List.Perm.refl _
  | cons p rest ih =>
    exact (insertByKey_perm p (sortByKey rest)).trans (List.Perm.cons p ih)

theorem insertByKey_sorted (p : Str × JVal) (l : List (Str × JVal))
    (hs : l.Pairwise (fun x y => strLt y.1 x.1 = false)) :
    (insertByKey p l).Pairwise (fun x y => strLt y.1 x.1 = false) := by
  induction l with
  | nil => exact List.pairwise_singleton _ _
  | cons q rest ih =>
    unfold insertByKey
    obtain ⟨hq, hrest⟩ := List.pairwise_cons.mp hs
    split
    · next hlt =>
      refine List.pairwise_cons.mpr ⟨?_, ih hrest⟩
      intro x hx
      have hx2 := (insertByKey_perm p rest).mem_iff.mp hx
      rcases List.mem_cons.mp hx2 with hxp | hxr
      · subst hxp
        exact strLt_asymm hlt
      · exact hq x hxr
    · next hnlt =>
      refine List.pairwise_cons.mpr ⟨?_, hs⟩
      intro x hx
      rcases List.mem_cons.mp hx with hxq | hxr
      · subst hxq
        simpa using hnlt
      · exact keyLe_trans (by simpa using hnlt) (hq x hxr)

theorem sortByKey_sorted (l : List (Str × JVal)) :
    (sortByKey l).Pairwise (fun x y => strLt y.1 x.1 = false) := by
  induction l with
  | nil => exact List.Pairwise.nil
  | cons p rest ih => exact insertByKey_sorted p (sortByKey rest) ih

theorem sortByKey_eq_of_perm {l1 l2 : List (Str × JVal)} (hp : l1.Perm l2)
    (hnd : (l1.map Prod.fst).Nodup) : sortByKey l1 = sortByKey l2 := by
  haveI : IsAntisymm (Str × JVal) (fun x y => strLt x.1 y.1 = true) :=
    ⟨fun a b h1 h2 => absurd h2 (by simp [strLt_asymm h1])⟩
  have hperm : (sortByKey l1).Perm (sortByKey l2) :=
    (sortByKey_perm l1).trans (hp.trans (sortByKey_perm l2).symm)
  have strict : ∀ (l : List (Str × JVal)), (l.map Prod.fst).Nodup →
      List.Sorted (fun x y => strLt x.1 y.1 = true) (sortByKey l) := by
    intro l hl
    have hnds : ((sortByKey l).map Prod.fst).Nodup :=
      hl.perm ((sortByKey_perm l).map Prod.fst).symm
    have hne : (sortByKey l).Pairwise (fun x y => x.1 ≠ y.1) :=
      List.pairwise_map.mp hnds
    have hle := sortByKey_sorted l
    refine (hle.and hne).imp ?_
    intro a b hab
    cases hlt : strLt a.1 b.1
    · exact absurd (strLt_connex hlt hab.1) hab.2
    · rfl
  exact List.eq_of_perm_of_sorted hperm (strict l1 hnd)
    (strict l2 (hnd.perm (hp.map Prod.fst)))

/-- C8 (counterexample): two steps identical except for one flag's value
(`"70766"` vs `"81102"`) share the 8-character hash suffix — the truncated
MD5 collides — so changing a flag value does not always change the
composite name. -/
theorem c8_counterexample :
    stepC8a.order = stepC8b.order ∧
    stepC8a.microservice = stepC8b.microservice ∧
    stepC8a.command_spec.map (fun c => c.program) =
      stepC8b.command_spec.map (fun c => c.program) ∧
    flagsOf stepC8a ≠ flagsOf stepC8b ∧
    get_composite_name stepC8a = get_composite_name stepC8b :=
  ⟨rfl, rfl, rfl, by decide, by decide⟩

/-- C8 (amended): the composite name is
`"\x7border:03d\x7d_\x7bservice\x7d_\x7bprogram\x7d_\x7bparam_hash8\x7d"` with
`param_hash8` the first 8 hex characters of the MD5 of the canonical
(sorted-key, compact-separator) JSON of `command_spec.flags`; it is a pure
function of `(order, service, program, flags)`, and key order of the flags
is immaterial.  The 8-character suffix is however not injective in the
flag values (see the counterexample). -/
theorem c8_amended (s t : JobStep)
    (h1 : s.order = t.order)
    (h2 : s.microservice = t.microservice)
    (h3 : s.command_spec.map (fun c => c.program) =
      t.command_spec.map (fun c => c.program))
    (hperm : (flagsOf s).Perm (flagsOf t))
    (hnd : ((flagsOf s).map Prod.fst).Nodup) :
    get_composite_name s = get_composite_name t ∧
    get_composite_name s =
      (match s.order with
       | none => str "000"
       | some n => pad3 n) ++ '_' ::
      (match s.microservice with
       | none => str "unknown"
       | some m => if m = [] then str "unknown" else m) ++ '_' ::
      (match s.command_spec with
       | none => str "unknown"
       | some cs => if cs.program = [] then str "unknown" else cs.program) ++
      '_' :: (md5hex (utf8 (jsonDumpsSorted (flagsOf s)))).take 8 := by
  have hhash : params_hash (flagsOf s) = params_hash (flagsOf t) := by
    unfold params_hash jsonDumpsSorted
    rw [sortByKey_eq_of_perm hperm hnd]
  have hprog : (match s.command_spec with
      | none => str "unknown"
      | some cs => if cs.program = [] then str "unknown" else cs.program) =
      (match t.command_spec with
      | none => str "unknown"
      | some cs => if cs.program = [] then str "unknown" else cs.program) := by
    cases hs : s.command_spec <;> cases ht : t.command_spec <;>
      rw [hs, ht] at h3 <;> simp_all
  constructor
  · simp only [get_composite_name]
    rw [h1, h2, hprog]
    have e : (match s.command_spec with
        | none => []
        | some cs => cs.flags) = flagsOf s := rfl
    have e2 : (match t.command_spec with
        | none => []
        | some cs => cs.flags) = flagsOf t := rfl
    rw [e, e2, hhash]
  · unfold get_composite_name
    rfl

/-- C8 (witness): two steps with the same flags in opposite key order and
different incidental fields share the composite name, which has the
specified shape. -/
theorem c8_witness :
    get_composite_name stepC8c = get_composite_name stepC8d ∧
    get_composite_name stepC8c =
      (match stepC8c.order with
       | none => str "000"
       | some n => pad3 n) ++ '_' ::
      (match stepC8c.microservice with
       | none => str "unknown"
       | some m => if m = [] then str "unknown" else m) ++ '_' ::
      (match stepC8c.command_spec with
       | none => str "unknown"
       | some cs => if cs.program = [] then str "unknown" else cs.program) ++
      '_' :: (md5hex (utf8 (jsonDumpsSorted (flagsOf stepC8c)))).take 8 :=
  c8_amended stepC8c stepC8d rfl rfl rfl (by decide) (by decide)

/-- C9 (witness): a non-empty output map with no file on disk makes the
step fail. -/
theorem c9_witness :
    ∃ msg, CommandExecutor.process_after_execution
      [(str "o", str "p")] [] = .failed msg :=
  (c9_theorem [(str "o", str "p")] []).1.mpr (by decide)

theorem initialDispatchLoop_skip (db : Orchestrator.Store) (job : Job) :
    ∀ ss : List JobStep,
      (∀ s ∈ ss, job.step_transitions.any
        (fun t => t.to_step_id = s.step_id) = true) →
      Orchestrator.initialDispatchLoop db job ss = ⟨db, [], none⟩ := by
  intro ss
  induction ss with
  | nil => intro _; rfl
  | cons s rest ih =>
    intro h
    unfold Orchestrator.initialDispatchLoop
    rw [if_pos (h s (List.mem_cons_self s rest))]
    exact ih (fun x hx => h x (List.mem_cons_of_mem s hx))

/-- C3 (counterexample): a payload whose transitions form the cycle
`A → B → A` is accepted: `create_job` raises nothing, persists the job
with both cycle edges, and dispatches no step. -/
theorem c3_counterexample :
    (Orchestrator.create_job [] (str "cyclic") sidFun payloadC3).err = none ∧
    (∃ j, (Orchestrator.create_job [] (str "cyclic") sidFun payloadC3).job =
        some j ∧
      Orchestrator.get_job
        (Orchestrator.create_job [] (str "cyclic") sidFun payloadC3).db
        (str "cyclic") = some j ∧
      j.step_transitions =
        [⟨sidFun 0, sidFun 1, []⟩, ⟨sidFun 1, sidFun 0, []⟩]) ∧
    (Orchestrator.create_job [] (str "cyclic") sidFun payloadC3).pushes = [] :=
  ⟨rfl, ⟨_, rfl, rfl, rfl⟩, rfl⟩

/-- C3 (amended): `create_job` performs no cycle validation.  Whenever the
payload's steps build, the job id is fresh, the payload has no truthy
user id (so directory preparation is a no-op), and every built step is
the target of some resolvable transition — as in a full cycle — the job
is persisted as `pending` with no error and nothing is dispatched. -/
theorem c3_amended (db : Orchestrator.Store) (jobId : Str)
    (stepIds : Nat → Str) (p : Orchestrator.Payload) (steps : List JobStep)
    (hbuild : Orchestrator.buildSteps stepIds 0 p.steps = .ok steps)
    (hnew : Orchestrator.get_job db jobId = none)
    (huser : pyTruthy p.user_id = false)
    (hcov : ∀ s ∈ steps, ∃ pt ∈ p.step_transitions,
      Orchestrator.name_to_id steps pt.to_step_name = some s.step_id ∧
      (Orchestrator.name_to_id steps pt.from_step_name).isSome = true) :
    Orchestrator.create_job db jobId stepIds p =
      ⟨db ++ [Orchestrator.builtJob jobId p.user_id steps p.step_transitions],
       [], some (Orchestrator.builtJob jobId p.user_id steps p.step_transitions),
       none⟩ ∧
    (Orchestrator.builtJob jobId p.user_id steps p.step_transitions).steps =
      steps ∧
    (Orchestrator.builtJob jobId p.user_id steps p.step_transitions).status =
      .pending := by
  have hprep : Orchestrator.prepare_job_directory_structure
      (Orchestrator.builtJob jobId p.user_id steps p.step_transitions) =
      .ok () := by
    unfold Orchestrator.prepare_job_directory_structure
    rw [if_pos (by simp [Orchestrator.builtJob, huser])]
  have hcond : ∀ s ∈ (Orchestrator.builtJob jobId p.user_id steps
      p.step_transitions).steps,
      (Orchestrator.builtJob jobId p.user_id steps
        p.step_transitions).step_transitions.any
        (fun t => t.to_step_id = s.step_id) = true := by
    intro s hs
    obtain ⟨pt, hpt, hto, hfrom⟩ := hcov s hs
    obtain ⟨fid, hfid⟩ := Option.isSome_iff_exists.mp hfrom
    refine List.any_eq_true.mpr
      ⟨⟨fid, s.step_id, pt.output_to_input_mapping⟩,
       List.mem_filterMap.mpr ⟨pt, hpt, ?_⟩, by simp⟩
    rw [hfid, hto]
  have hloop := initialDispatchLoop_skip
    (db ++ [Orchestrator.builtJob jobId p.user_id steps p.step_transitions])
    (Orchestrator.builtJob jobId p.user_id steps p.step_transitions)
    (Orchestrator.builtJob jobId p.user_id steps p.step_transitions).steps
    hcond
  refine ⟨?_, rfl, rfl⟩
  unfold Orchestrator.create_job
  rw [hbuild]
  dsimp only
  rw [if_neg (by rw [hnew]; simp)]
  rw [hprep, hloop]

/-- C3 (witness): the cyclic payload goes through `create_job` with no
error and no dispatch on a fresh store. -/
theorem c3_witness :
    (Orchestrator.create_job [] (str "w3") sidFun payloadC3).pushes = [] ∧
    (Orchestrator.create_job [] (str "w3") sidFun payloadC3).err = none := by
  have h := c3_amended [] (str "w3") sidFun payloadC3 _ rfl rfl
    (by decide) (by decide)
  exact ⟨by rw [h.1], by rw [h.1]⟩

theorem map_eq_self_of_all {α : Type} (l : List α) (f : α → α)
    (h : ∀ x ∈ l, f x = x) : l.map f = l := by
  induction l with
  | nil => rfl
  | cons a rest ih =>
    rw [List.map_cons, h a (List.mem_cons_self a rest),
      ih (fun x hx => h x (List.mem_cons_of_mem a hx))]

theorem find?_decomp {α : Type} (p : α → Bool) :
    ∀ (l : List α) (a : α), l.find? p = some a →
      ∃ l1 l2, l = l1 ++ a :: l2 ∧ ∀ x ∈ l1, p x = false := by
  intro l
  induction l with
  | nil => intro a h; simp at h
  | cons x rest ih =>
    intro a h
    rw [List.find?_cons] at h
    match hp : p x with
    | true =>
      rw [hp] at h
      refine ⟨[], rest, ?_, by simp⟩
      simpa using (Option.some.inj h).symm ▸ rfl
    | false =>
      rw [hp] at h
      obtain ⟨l1, l2, hl, hall⟩ := ih a h
      refine ⟨x :: l1, l2, by rw [hl]; rfl, ?_⟩
      intro y hy
      rcases List.mem_cons.mp hy with hyx | hyl
      · subst hyx; exact hp
      · exact hall y hyl

namespace Legacy

/-- Cons-step equation for `updateFirstStep`. -/
theorem lUpdateFirstStep_cons (s : LStep) (rest : List LStep) (sid : Str)
    (f : LStep → LStep) :
    updateFirstStep (s :: rest) sid f =
      if s.step_id = sid then f s :: rest
      else s :: updateFirstStep rest sid f := rfl

theorem lGetJob_updateJob (db : LStore) (jid : Str) (f : LJob → LJob)
    (hf : ∀ j, (f j).job_id = j.job_id) :
    get_job (updateJob db jid f) jid = (get_job db jid).map f := by
  induction db with
  | nil => rfl
  | cons j rest ih =>
    by_cases hj : j.job_id = jid
    · unfold updateJob get_job
      rw [if_pos hj]
      rw [List.find?_cons, List.find?_cons]
      simp [hf j, hj]
    · unfold updateJob
      rw [if_neg hj]
      show get_job (j :: updateJob rest jid f) jid =
        Option.map f (get_job (j :: rest) jid)
      unfold get_job
      rw [List.find?_cons, List.find?_cons]
      have hd : (decide (j.job_id = jid)) = false := by simp [hj]
      rw [hd]
      exact ih

/-- `get_job` after `update_job_status` on the same id. -/
theorem lGetJob_update_job_status (db : LStore) (jid : Str) (st : JobStatus) :
    get_job (update_job_status db jid st) jid =
      (get_job db jid).map (setJobStatus st) :=
  lGetJob_updateJob db jid (setJobStatus st) (fun _ => rfl)

/-- `get_job` after `update_job_step_status` on the same id. -/
theorem lGetJob_update_step (db : LStore) (jid sid : Str)
    (st : JobStepStatus) (outs : Option (List Str)) (em : Option Str)
    (clr : Bool) :
    get_job (update_job_step_status db jid sid st outs em clr) jid =
      (get_job db jid).map (updateStepsOf sid (setStepFields st outs em clr)) :=
  lGetJob_updateJob db jid (updateStepsOf sid (setStepFields st outs em clr))
    (fun _ => rfl)

theorem lUpdateFirstStep_comp (sid : Str) (f g : LStep → LStep)
    (hf : ∀ s, (f s).step_id = s.step_id) :
    ∀ steps : List LStep,
      updateFirstStep (updateFirstStep steps sid f) sid g =
        updateFirstStep steps sid (fun s => g (f s)) := by
  intro steps
  induction steps with
  | nil => rfl
  | cons s rest ih =>
    by_cases hs : s.step_id = sid
    · rw [lUpdateFirstStep_cons, if_pos hs, lUpdateFirstStep_cons,
        if_pos (by rw [hf s]; exact hs), lUpdateFirstStep_cons, if_pos hs]
    · rw [lUpdateFirstStep_cons, if_neg hs, lUpdateFirstStep_cons, if_neg hs,
        lUpdateFirstStep_cons, if_neg hs, ih]

theorem lUpdateFirstStep_map (sid : Str) (f : LStep → LStep) :
    ∀ steps : List LStep, (steps.map (fun s => s.step_id)).Nodup →
      updateFirstStep steps sid f =
        steps.map (fun s => if s.step_id = sid then f s else s) := by
  intro steps
  induction steps with
  | nil => intro _; rfl
  | cons s rest ih =>
    intro hnd
    rw [List.map_cons] at hnd
    obtain ⟨hs1, hs2⟩ := List.nodup_cons.mp hnd
    by_cases hs : s.step_id = sid
    · rw [lUpdateFirstStep_cons, if_pos hs, List.map_cons, if_pos hs]
      have he2 : rest.map (fun x => if x.step_id = sid then f x else x) =
          rest := by
        refine map_eq_self_of_all rest _ (fun x hx => if_neg (fun he => ?_))
        refine hs1 ?_
        rw [hs, ← he]
        exact List.mem_map.mpr ⟨x, hx, rfl⟩
      rw [he2]
    · rw [lUpdateFirstStep_cons, if_neg hs, List.map_cons, if_neg hs, ih hs2]

end Legacy

/-- C4: `retry_job` refuses `complete` (AlreadyComplete) and `processing`
(InFlight) jobs; with every step complete it also fails (reported as
AlreadyComplete in the spec's taxonomy); otherwise it locates the first
step by order that is not complete, resets exactly that step to `pending`
with its error message cleared, sets the job `processing`, and dispatches
exactly that step (which the dispatch marks `processing`), leaving every
other step untouched. -/
theorem c4_theorem (db : Legacy.LStore) (jobId : Str) (jd : Legacy.LJob)
    (hfound : Legacy.get_job db jobId = some jd)
    (horder : ∀ (i : Nat) (s : Legacy.LStep), jd.steps[i]? = some s →
      s.order = i)
    (hnd : (jd.steps.map (fun s => s.step_id)).Nodup) :
    (jd.status = .complete →
      Legacy.retry_job db jobId = ⟨db, [], some .alreadyComplete⟩) ∧
    (jd.status = .processing →
      Legacy.retry_job db jobId = ⟨db, [], some .inFlight⟩) ∧
    (jd.status ≠ .complete → jd.status ≠ .processing →
      (∀ s ∈ jd.steps, s.status = .complete) →
      Legacy.retry_job db jobId = ⟨db, [], some .noIncompleteSteps⟩) ∧
    (∀ rs : Legacy.LStep,
      jd.status ≠ .complete → jd.status ≠ .processing →
      Legacy.find_resume_step jd = some rs →
      rs.service ≠ [] →
      (rs ∈ jd.steps ∧ rs.status ≠ .complete ∧
        (∀ s ∈ jd.steps, s.order < rs.order → s.status = .complete)) ∧
      (∃ jd1, Legacy.get_job
          (Legacy.update_job_step_status
            (Legacy.update_job_status db jobId .processing)
            jobId rs.step_id .pending none none true) jobId = some jd1 ∧
        jd1.steps = jd.steps.map (fun s =>
          if s.step_id = rs.step_id then
            { s with status := .pending, error_message := none }
          else s)) ∧
      (∃ db2 : Legacy.LStore,
        Legacy.retry_job db jobId =
          ⟨db2, [⟨rs.service ++ str "_queue", rs.step_id, rs.name,
            Legacy.merge_inputs rs.inputs
              (Legacy.collect_previous_outputs jd rs.order)⟩], none⟩ ∧
        ∃ jd2, Legacy.get_job db2 jobId = some jd2 ∧
          jd2.status = .processing ∧
          jd2.steps = jd.steps.map (fun s =>
            if s.step_id = rs.step_id then
              { s with status := .processing, error_message := none }
            else s))) := by
  have hjid : jd.job_id = jobId := by
    have := List.find?_some hfound
    simpa using this
  refine ⟨?_, ?_, ?_, ?_⟩
  · intro h
    simp only [Legacy.retry_job, hfound]
    rw [if_pos h]
  · intro h
    simp only [Legacy.retry_job, hfound]
    rw [if_neg (by simp [h]), if_pos h]
  · intro h1 h2 hall
    have hnone : Legacy.find_resume_step jd = none :=
      List.find?_eq_none.mpr (fun s hs => by simp [hall s hs])
    simp only [Legacy.retry_job, hfound, hnone]
    rw [if_neg h1, if_neg h2]
  · intro rs h1 h2 hfind hserv
    obtain ⟨l1, l2, hl, hall1⟩ := find?_decomp _ jd.steps rs hfind
    have hrsmem : rs ∈ jd.steps := by
      rw [hl]; exact List.mem_append_right _ (List.mem_cons_self _ _)
    have hrsnc : rs.status ≠ .complete := by
      have := List.find?_some hfind
      simpa using this
    have hrsorder : rs.order = l1.length := by
      refine horder l1.length rs ?_
      rw [hl, List.getElem?_append_right (le_refl _)]
      simp
    refine ⟨⟨hrsmem, hrsnc, ?_⟩, ?_, ?_⟩
    · intro s hs hlt
      rw [hl] at hs
      rcases List.mem_append.mp hs with hs1 | hs2
      · have := hall1 s hs1
        simpa using this
      · rcases List.mem_cons.mp hs2 with hseq | hs3
        · subst hseq; omega
        · exfalso
          obtain ⟨j, hj, hsj⟩ := List.mem_iff_getElem.mp hs3
          have hidx : jd.steps[l1.length + 1 + j]? = some s := by
            rw [hl, List.getElem?_append_right (by omega)]
            have : l1.length + 1 + j - l1.length = j + 1 := by omega
            rw [this]
            rw [List.getElem?_cons_succ]
            rw [List.getElem?_eq_getElem hj, hsj]
          have := horder _ s hidx
          omega
    · have g2 : Legacy.get_job
          (Legacy.update_job_step_status
            (Legacy.update_job_status db jobId .processing)
            jobId rs.step_id .pending none none true) jobId =
          some (Legacy.updateStepsOf rs.step_id
            (Legacy.setStepFields .pending none none true)
            (Legacy.setJobStatus .processing jd)) := by
        rw [Legacy.lGetJob_update_step, Legacy.lGetJob_update_job_status,
          hfound]
        rfl
      refine ⟨_, g2, ?_⟩
      show Legacy.updateFirstStep jd.steps rs.step_id
        (Legacy.setStepFields .pending none none true) = _
      rw [Legacy.lUpdateFirstStep_map _ _ jd.steps hnd]
      refine congrArg (fun f => jd.steps.map f) (funext (fun s => ?_))
      by_cases hs : s.step_id = rs.step_id
      · rw [if_pos hs, if_pos hs]
        rfl
      · rw [if_neg hs, if_neg hs]
    · have hr : Legacy.retry_job db jobId =
          Legacy.start_specific_step
            (Legacy.update_job_step_status
              (Legacy.update_job_status db jobId .processing)
              jobId rs.step_id .pending none none true) jd rs := by
        simp only [Legacy.retry_job, hfound, hfind]
        rw [if_neg h1, if_neg h2]
      have hsv : ¬(rs.service.isEmpty = true) := by
        simpa [List.isEmpty_iff] using hserv
      have g3 : Legacy.get_job
          (Legacy.update_job_step_status
            (Legacy.update_job_step_status
              (Legacy.update_job_status db jobId .processing)
              jobId rs.step_id .pending none none true)
            jd.job_id rs.step_id .processing none none false) jobId =
          some (Legacy.updateStepsOf rs.step_id
            (Legacy.setStepFields .processing none none false)
            (Legacy.updateStepsOf rs.step_id
              (Legacy.setStepFields .pending none none true)
              (Legacy.setJobStatus .processing jd))) := by
        rw [hjid, Legacy.lGetJob_update_step, Legacy.lGetJob_update_step,
          Legacy.lGetJob_update_job_status, hfound]
        rfl
      rw [hr]
      unfold Legacy.start_specific_step
      rw [if_neg hsv]
      refine ⟨_, rfl, ?_⟩
      refine ⟨_, g3, rfl, ?_⟩
      show Legacy.updateFirstStep
        (Legacy.updateFirstStep jd.steps rs.step_id
          (Legacy.setStepFields .pending none none true)) rs.step_id
        (Legacy.setStepFields .processing none none false) = _
      rw [Legacy.lUpdateFirstStep_comp rs.step_id
          (Legacy.setStepFields .pending none none true)
          (Legacy.setStepFields .processing none none false)
          (fun s => rfl) jd.steps,
        Legacy.lUpdateFirstStep_map _ _ jd.steps hnd]
      refine congrArg (fun f => jd.steps.map f) (funext (fun s => ?_))
      by_cases hs : s.step_id = rs.step_id
      · rw [if_pos hs, if_pos hs]
        rfl
      · rw [if_neg hs, if_neg hs]

/-- Witness for C4: retrying the concrete failed job `ljobC4` produces
exactly one push, to `y_queue`, for step `s1` with merged inputs, and the
stored job is `processing` with `s1` reset to `processing` and its error
message cleared. -/
theorem c4_witness :
    ∃ db2 : Legacy.LStore,
      Legacy.retry_job [ljobC4] (str "L") =
        ⟨db2, [⟨rsC4.service ++ str "_queue", rsC4.step_id, rsC4.name,
          Legacy.merge_inputs rsC4.inputs
            (Legacy.collect_previous_outputs ljobC4 rsC4.order)⟩], none⟩ ∧
      ∃ jd2, Legacy.get_job db2 (str "L") = some jd2 ∧
        jd2.status = .processing ∧
        jd2.steps = ljobC4.steps.map (fun s =>
          if s.step_id = rsC4.step_id then
            { s with status := .processing, error_message := none }
          else s) :=
  ((c4_theorem [ljobC4] (str "L") ljobC4 rfl
      (by
        intro i s h
        rcases i with _ | _ | _ | i
        · injection h with h2
          subst h2
          rfl
        · injection h with h2
          subst h2
          rfl
        · injection h with h2
          subst h2
          rfl
        · exact Option.noConfusion h)
      (by decide)).2.2.2
    rsC4 (by decide) (by decide) rfl (by decide)).2.2

namespace Orchestrator

/-- Cons-step equation for `updateFirstStep`. -/
theorem updateFirstStep_cons (s : JobStep) (rest : List JobStep) (sid : Str)
    (f : JobStep → JobStep) :
    updateFirstStep (s :: rest) sid f =
      if s.step_id = sid then f s :: rest
      else s :: updateFirstStep rest sid f := rfl

/-- `get_job` after `updateJob` on the same id, for a document rewrite
preserving `job_id`. -/
theorem gGetJob_updateJob (db : Store) (jid : Str) (f : Job → Job)
    (hf : ∀ j, (f j).job_id = j.job_id) :
    get_job (updateJob db jid f) jid = (get_job db jid).map f := by
  induction db with
  | nil => rfl
  | cons j rest ih =>
    by_cases hj : j.job_id = jid
    · unfold updateJob get_job
      rw [if_pos hj]
      rw [List.find?_cons, List.find?_cons]
      simp [hf j, hj]
    · unfold updateJob
      rw [if_neg hj]
      show get_job (j :: updateJob rest jid f) jid =
        Option.map f (get_job (j :: rest) jid)
      unfold get_job
      rw [List.find?_cons, List.find?_cons]
      have hd : (decide (j.job_id = jid)) = false := by simp [hj]
      rw [hd]
      exact ih

/-- Cons-step equation for `updateJob`. -/
theorem updateJob_cons (j : Job) (rest : Store) (jid : Str) (f : Job → Job) :
    updateJob (j :: rest) jid f =
      if j.job_id = jid then f j :: rest
      else j :: updateJob rest jid f := rfl

/-- Cons-step equation for `get_job`. -/
theorem get_job_cons (j : Job) (rest : Store) (jid : Str) :
    get_job (j :: rest) jid =
      if j.job_id = jid then some j else get_job rest jid := by
  unfold get_job
  rw [List.find?_cons]
  by_cases h : j.job_id = jid
  · rw [if_pos h]
    simp [h]
  · rw [if_neg h]
    simp [h]

/-- `get_job` at a different id is unaffected by `updateJob`. -/
theorem gGetJob_updateJob_other (db : Store) (jid jid' : Str) (f : Job → Job)
    (hne : jid' ≠ jid) (hf : ∀ j, (f j).job_id = j.job_id) :
    get_job (updateJob db jid f) jid' = get_job db jid' := by
  have hne2 : jid ≠ jid' := fun h => hne h.symm
  induction db with
  | nil => rfl
  | cons j rest ih =>
    by_cases hj : j.job_id = jid
    · rw [updateJob_cons, if_pos hj, get_job_cons, get_job_cons,
        if_neg (by rw [hf j, hj]; exact hne2), if_neg (by rw [hj]; exact hne2)]
    · rw [updateJob_cons, if_neg hj, get_job_cons, get_job_cons]
      by_cases hj' : j.job_id = jid'
      · rw [if_pos hj', if_pos hj']
      · rw [if_neg hj', if_neg hj', ih]

/-- Two `updateJob`s on the same id compose. -/
theorem updateJob_updateJob (db : Store) (jid : Str) (f g : Job → Job)
    (hf : ∀ j, (f j).job_id = j.job_id) :
    updateJob (updateJob db jid f) jid g =
      updateJob db jid (fun j => g (f j)) := by
  induction db with
  | nil => rfl
  | cons j rest ih =>
    by_cases hj : j.job_id = jid
    · rw [updateJob_cons, if_pos hj, updateJob_cons,
        if_pos (by rw [hf j]; exact hj), updateJob_cons, if_pos hj]
    · rw [updateJob_cons, if_neg hj, updateJob_cons, if_neg hj,
        updateJob_cons, if_neg hj, ih]

/-- `updateJob` with no matching document is the identity. -/
theorem updateJob_eq_self_none (db : Store) (jid : Str) (f : Job → Job)
    (h : get_job db jid = none) : updateJob db jid f = db := by
  induction db with
  | nil => rfl
  | cons j rest ih =>
    rw [get_job_cons] at h
    by_cases hj : j.job_id = jid
    · rw [if_pos hj] at h
      exact absurd h (by simp)
    · rw [if_neg hj] at h
      rw [updateJob_cons, if_neg hj, ih h]

/-- `updateJob` whose rewrite fixes the matched document is the identity. -/
theorem updateJob_eq_self (db : Store) (jid : Str) (f : Job → Job) (j : Job)
    (h : get_job db jid = some j) (hfix : f j = j) : updateJob db jid f = db := by
  induction db with
  | nil => exact Option.noConfusion h
  | cons j' rest ih =>
    rw [get_job_cons] at h
    by_cases hj : j'.job_id = jid
    · rw [if_pos hj] at h
      injection h with hjj
      rw [updateJob_cons, if_pos hj, hjj, hfix]
    · rw [if_neg hj] at h
      rw [updateJob_cons, if_neg hj, ih h]

/-- `get_job` after `update_job_status` on the same id. -/
theorem gGetJob_update_job_status (db : Store) (jid : Str) (st : JobStatus) :
    get_job (update_job_status db jid st) jid =
      (get_job db jid).map (setStatus st) :=
  gGetJob_updateJob db jid (setStatus st) (fun _ => rfl)

/-- `get_job` at a different id after `update_job_status`. -/
theorem gGetJob_update_job_status_other (db : Store) (jid jid' : Str)
    (st : JobStatus) (hne : jid' ≠ jid) :
    get_job (update_job_status db jid st) jid' = get_job db jid' :=
  gGetJob_updateJob_other db jid jid' (setStatus st) hne (fun _ => rfl)

/-- `get_job` after `update_job_step_status` on the same id. -/
theorem gGetJob_update_step (db : Store) (jid sid : Str)
    (st : JobStepStatus) (outs : Option (List (Str × Str))) :
    get_job (update_job_step_status db jid sid st outs) jid =
      (get_job db jid).map (updateStepsOf sid (setStepFields st outs)) :=
  gGetJob_updateJob db jid (updateStepsOf sid (setStepFields st outs))
    (fun _ => rfl)

/-- `get_job` at a different id after `update_job_step_status`. -/
theorem gGetJob_update_step_other (db : Store) (jid jid' sid : Str)
    (st : JobStepStatus) (outs : Option (List (Str × Str))) (hne : jid' ≠ jid) :
    get_job (update_job_step_status db jid sid st outs) jid' =
      get_job db jid' :=
  gGetJob_updateJob_other db jid jid' (updateStepsOf sid (setStepFields st outs))
    hne (fun _ => rfl)

/-- Under distinct step ids, `updateFirstStep` is a pointwise map. -/
theorem updateFirstStep_map (sid : Str) (f : JobStep → JobStep) :
    ∀ steps : List JobStep, (steps.map (fun s => s.step_id)).Nodup →
      updateFirstStep steps sid f =
        steps.map (fun s => if s.step_id = sid then f s else s) := by
  intro steps
  induction steps with
  | nil => intro _; rfl
  | cons s rest ih =>
    intro hnd
    rw [List.map_cons] at hnd
    obtain ⟨hs1, hs2⟩ := List.nodup_cons.mp hnd
    by_cases hs : s.step_id = sid
    · rw [updateFirstStep_cons, if_pos hs, List.map_cons, if_pos hs]
      have he2 : rest.map (fun x => if x.step_id = sid then f x else x) =
          rest := by
        refine map_eq_self_of_all rest _ (fun x hx => if_neg (fun he => ?_))
        refine hs1 ?_
        rw [hs, ← he]
        exact List.mem_map.mpr ⟨x, hx, rfl⟩
      rw [he2]
    · rw [updateFirstStep_cons, if_neg hs, List.map_cons, if_neg hs, ih hs2]

/-- Two `updateFirstStep`s on the same id compose, for an id-preserving
first rewrite. -/
theorem updateFirstStep_comp (sid : Str) (f g : JobStep → JobStep)
    (hf : ∀ s, (f s).step_id = s.step_id) :
    ∀ steps : List JobStep,
      updateFirstStep (updateFirstStep steps sid f) sid g =
        updateFirstStep steps sid (fun s => g (f s)) := by
  intro steps
  induction steps with
  | nil => rfl
  | cons s rest ih =>
    by_cases hs : s.step_id = sid
    · rw [updateFirstStep_cons, if_pos hs, updateFirstStep_cons,
        if_pos (by rw [hf s]; exact hs), updateFirstStep_cons, if_pos hs]
    · rw [updateFirstStep_cons, if_neg hs, updateFirstStep_cons, if_neg hs,
        updateFirstStep_cons, if_neg hs, ih]

/-- `updateFirstStep` whose rewrite fixes every matching step is the
identity. -/
theorem updateFirstStep_id (sid : Str) (f : JobStep → JobStep) :
    ∀ steps : List JobStep, (∀ s ∈ steps, s.step_id = sid → f s = s) →
      updateFirstStep steps sid f = steps := by
  intro steps
  induction steps with
  | nil => intro _; rfl
  | cons s rest ih =>
    intro h
    by_cases hs : s.step_id = sid
    · rw [updateFirstStep_cons, if_pos hs, h s (List.mem_cons_self s rest) hs]
    · rw [updateFirstStep_cons, if_neg hs,
        ih (fun x hx => h x (List.mem_cons_of_mem s hx))]

/-- `updateStepsOf` whose steps rewrite does nothing fixes the document. -/
theorem updateStepsOf_eq_self (sid : Str) (f : JobStep → JobStep) (j : Job)
    (h : updateFirstStep j.steps sid f = j.steps) :
    updateStepsOf sid f j = j := by
  cases j with
  | mk jid uid st steps tr =>
    unfold updateStepsOf
    dsimp only at h ⊢
    rw [h]

/-- Mapping an id-preserving conditional rewrite keeps the id list. -/
theorem ids_map_of_preserve (xs : List JobStep) (f : JobStep → JobStep)
    (hf : ∀ x, (f x).step_id = x.step_id) :
    (xs.map f).map JobStep.step_id = xs.map JobStep.step_id := by
  rw [List.map_map]
  exact congrArg (fun g => List.map g xs) (funext (fun x => hf x))

/-- Under distinct step ids, equal ids mean equal steps. -/
theorem eq_of_ids_nodup (xs : List JobStep)
    (hnd : (xs.map JobStep.step_id).Nodup) (a b : JobStep)
    (ha : a ∈ xs) (hb : b ∈ xs) (hid : a.step_id = b.step_id) : a = b := by
  by_contra hne
  have hp : xs.Pairwise (fun a b => a.step_id ≠ b.step_id) :=
    (List.pairwise_map).mp hnd
  have hsym : Symmetric (fun a b : JobStep => a.step_id ≠ b.step_id) :=
    fun x y h he => h he.symm
  exact hp.forall hsym ha hb hne hid

end Orchestrator

namespace Orchestrator

/-- `_resolve_step_inputs` only augments the step's `inputs`; identity,
status and microservice are preserved. -/
theorem resolve_step_inputs_fields (db : Store) (job : Job) (s s2 : JobStep)
    (h : resolve_step_inputs db job s = .ok s2) :
    s2.step_id = s.step_id ∧ s2.status = s.status ∧
      s2.microservice = s.microservice := by
  unfold resolve_step_inputs at h
  cases hagg : aggregateInputs db job s [] job.step_transitions with
  | error e =>
    rw [hagg] at h
    exact Except.noConfusion h
  | ok agg =>
    rw [hagg] at h
    injection h with h2
    subst h2
    exact ⟨rfl, rfl, rfl⟩

/-- Membership characterization of the ready loop: every collected step is
the input-resolution of a source step that passes the status gate and has
its dependencies complete, and conversely every such source step is
collected. -/
theorem readyLoop_mem (db : Store) (job : Job) :
    ∀ (steps l : List JobStep), readyLoop db job steps = .ok l →
      (∀ s2 ∈ l, ∃ s ∈ steps,
        ¬(s.status = .processing ∨ s.status = .complete ∨ s.status = .failed) ∧
        are_step_inputs_ready job s = true ∧
        resolve_step_inputs db job s = .ok s2) ∧
      (∀ s ∈ steps,
        ¬(s.status = .processing ∨ s.status = .complete ∨ s.status = .failed) →
        are_step_inputs_ready job s = true →
        ∃ s2 ∈ l, resolve_step_inputs db job s = .ok s2) := by
  intro steps
  induction steps with
  | nil =>
    intro l h
    injection h with h2
    subst h2
    exact ⟨by simp, by simp⟩
  | cons s rest ih =>
    intro l h
    simp only [readyLoop] at h
    by_cases hskip :
        s.status = .processing ∨ s.status = .complete ∨ s.status = .failed
    · rw [if_pos hskip] at h
      obtain ⟨iha, ihb⟩ := ih l h
      refine ⟨fun x hx => ?_, fun x hxm hxs hxr => ?_⟩
      · obtain ⟨y, hy, hys, hyr, hyok⟩ := iha x hx
        exact ⟨y, List.mem_cons_of_mem s hy, hys, hyr, hyok⟩
      · rcases List.mem_cons.mp hxm with hxh | hxt
        · subst hxh
          exact absurd hskip hxs
        · exact ihb x hxt hxs hxr
    · rw [if_neg hskip] at h
      by_cases hready : are_step_inputs_ready job s = true
      · rw [if_pos hready] at h
        cases hres : resolve_step_inputs db job s with
        | error e =>
          rw [hres] at h
          exact Except.noConfusion h
        | ok s2 =>
          rw [hres] at h
          cases hrest : readyLoop db job rest with
          | error e =>
            rw [hrest] at h
            exact Except.noConfusion h
          | ok l2 =>
            rw [hrest] at h
            injection h with h2
            subst h2
            obtain ⟨iha, ihb⟩ := ih l2 hrest
            refine ⟨fun x hx => ?_, fun x hxm hxs hxr => ?_⟩
            · rcases List.mem_cons.mp hx with hxh | hxt
              · subst hxh
                exact ⟨s, List.mem_cons_self s rest, hskip, hready, hres⟩
              · obtain ⟨y, hy, hys, hyr, hyok⟩ := iha x hxt
                exact ⟨y, List.mem_cons_of_mem s hy, hys, hyr, hyok⟩
            · rcases List.mem_cons.mp hxm with hxh | hxt
              · subst hxh
                exact ⟨s2, List.mem_cons_self s2 l2, hres⟩
              · obtain ⟨y2, hy2, hy2ok⟩ := ihb x hxt hxs hxr
                exact ⟨y2, List.mem_cons_of_mem s2 hy2, hy2ok⟩
      · rw [if_neg hready] at h
        obtain ⟨iha, ihb⟩ := ih l h
        refine ⟨fun x hx => ?_, fun x hxm hxs hxr => ?_⟩
        · obtain ⟨y, hy, hys, hyr, hyok⟩ := iha x hx
          exact ⟨y, List.mem_cons_of_mem s hy, hys, hyr, hyok⟩
        · rcases List.mem_cons.mp hxm with hxh | hxt
          · subst hxh
            exact absurd hxr hready
          · exact ihb x hxt hxs hxr

/-- When every step is status-gated or has an incomplete dependency, the
ready loop collects nothing (and never raises). -/
theorem readyLoop_eq_nil (db : Store) (job : Job) :
    ∀ steps : List JobStep,
      (∀ s ∈ steps,
        (s.status = .processing ∨ s.status = .complete ∨ s.status = .failed) ∨
        are_step_inputs_ready job s = false) →
      readyLoop db job steps = .ok [] := by
  intro steps
  induction steps with
  | nil => intro _; rfl
  | cons s rest ih =>
    intro h
    simp only [readyLoop]
    rcases h s (List.mem_cons_self s rest) with hskip | hnr
    · rw [if_pos hskip]
      exact ih (fun x hx => h x (List.mem_cons_of_mem s hx))
    · by_cases hskip :
          s.status = .processing ∨ s.status = .complete ∨ s.status = .failed
      · rw [if_pos hskip]
        exact ih (fun x hx => h x (List.mem_cons_of_mem s hx))
      · rw [if_neg hskip, if_neg (by simp [hnr])]
        exact ih (fun x hx => h x (List.mem_cons_of_mem s hx))

/-- Readiness reflects along an id-preserving steps rewrite that never
turns an incomplete step complete. -/
theorem are_ready_of_map (job jobF : Job) (m : JobStep → JobStep)
    (htr : jobF.step_transitions = job.step_transitions)
    (hsteps : jobF.steps = job.steps.map m)
    (hmid : ∀ y, (m y).step_id = y.step_id)
    (hmc : ∀ y, (m y).status = .complete → y.status = .complete)
    (x x' : JobStep) (hid : x'.step_id = x.step_id) :
    are_step_inputs_ready jobF x' = true → are_step_inputs_ready job x = true := by
  unfold are_step_inputs_ready
  rw [htr, hid, hsteps]
  intro h
  rw [List.all_eq_true] at h ⊢
  intro d hd
  have hfd := h d hd
  rw [List.find?_map] at hfd
  have hpred : (fun s => decide (s.step_id = d)) ∘ m =
      (fun s => decide (s.step_id = d)) := by
    funext y
    simp [Function.comp, hmid y]
  rw [hpred] at hfd
  cases hfind : job.steps.find? (fun s => decide (s.step_id = d)) with
  | none =>
    rw [hfind] at hfd
    exact absurd hfd (by simp)
  | some dep =>
    rw [hfind] at hfd
    simp only [Option.map_some'] at hfd
    have hc : (m dep).status = .complete := by
      simpa using hfd
    simpa using hmc dep hc

/-- Dependency-readiness as the claim phrases it: every inbound
transition's `from_step` is found among the job's steps with status
`complete`. -/
theorem are_step_inputs_ready_iff (job : Job) (s : JobStep) :
    are_step_inputs_ready job s = true ↔
      ∀ t ∈ job.step_transitions, t.to_step_id = s.step_id →
        ∃ dep, job.steps.find? (fun x => x.step_id = t.from_step_id) =
            some dep ∧ dep.status = JobStepStatus.complete := by
  unfold are_step_inputs_ready
  rw [List.all_eq_true]
  constructor
  · intro h t ht hto
    have hd : t.from_step_id ∈
        ((job.step_transitions.filter
          (fun t => t.to_step_id = s.step_id)).map (fun t => t.from_step_id)) :=
      List.mem_map.mpr ⟨t, List.mem_filter.mpr ⟨ht, by simp [hto]⟩, rfl⟩
    have := h _ hd
    cases hfind : job.steps.find? (fun x => x.step_id = t.from_step_id) with
    | none =>
      rw [hfind] at this
      exact absurd this (by simp)
    | some dep =>
      rw [hfind] at this
      exact ⟨dep, rfl, by simpa using this⟩
  · intro h d hd
    obtain ⟨t, htf, hd2⟩ := List.mem_map.mp hd
    obtain ⟨ht, hto⟩ := List.mem_filter.mp htf
    obtain ⟨dep, hfind, hc⟩ := h t ht (by simpa using hto)
    rw [← hd2, hfind]
    simp [hc]

end Orchestrator

/-- C1 counterexample: in `jobC1` the single step has status `running`
(not `pending`), yet the ready-set computation collects it, refuting the
claim's "ready only if pending". -/
theorem c1_counterexample :
    Orchestrator.get_ready_steps [jobC1] jobC1 = .ok [stepC1] ∧
    stepC1.status = JobStepStatus.running ∧
    stepC1.status ≠ JobStepStatus.pending := by
  refine ⟨rfl, rfl, by decide⟩

/-- C1 (corrected): the ready set of `_get_ready_steps` (when it raises
nothing) consists exactly of the input-resolutions of those steps whose
status is NOT `processing`, `complete` or `failed` (so `pending`,
`initializing`, `running` and `uploading` all qualify — not only
`pending`) and whose inbound transitions all point back to a step found
among the job's steps with status `complete`; input resolution preserves
identity, status and microservice, and a step with no inbound transitions
passes the dependency check vacuously. -/
theorem c1_amended (db : Orchestrator.Store) (job : Job)
    (l : List JobStep) (h : Orchestrator.get_ready_steps db job = .ok l) :
    (∀ s2 ∈ l, ∃ s ∈ job.steps,
      s2.step_id = s.step_id ∧ s2.status = s.status ∧
      s2.microservice = s.microservice ∧
      ¬(s.status = .processing ∨ s.status = .complete ∨ s.status = .failed) ∧
      Orchestrator.are_step_inputs_ready job s = true) ∧
    (∀ s ∈ job.steps,
      ¬(s.status = .processing ∨ s.status = .complete ∨ s.status = .failed) →
      Orchestrator.are_step_inputs_ready job s = true →
      ∃ s2 ∈ l, s2.step_id = s.step_id) ∧
    (∀ s : JobStep, Orchestrator.are_step_inputs_ready job s = true ↔
      ∀ t ∈ job.step_transitions, t.to_step_id = s.step_id →
        ∃ dep, job.steps.find? (fun x => x.step_id = t.from_step_id) =
            some dep ∧ dep.status = JobStepStatus.complete) := by
  obtain ⟨ha, hb⟩ := Orchestrator.readyLoop_mem db job job.steps l h
  refine ⟨fun s2 hs2 => ?_, fun s hs hns hr => ?_, fun s =>
    Orchestrator.are_step_inputs_ready_iff job s⟩
  · obtain ⟨s, hsm, hns, hr, hok⟩ := ha s2 hs2
    obtain ⟨h1, h2, h3⟩ :=
      Orchestrator.resolve_step_inputs_fields db job s s2 hok
    exact ⟨s, hsm, h1, h2, h3, hns, hr⟩
  · obtain ⟨s2, hs2m, hok⟩ := hb s hs hns hr
    obtain ⟨h1, h2, h3⟩ :=
      Orchestrator.resolve_step_inputs_fields db job s s2 hok
    exact ⟨s2, hs2m, h1⟩

/-- Witness for C1: applied to the concrete store `[jobC1]`, whose ready
list is `[stepC1]`, the forward direction locates `stepC1` in the ready
set although its status is `running`. -/
theorem c1_witness :
    ∃ s2 ∈ [stepC1], s2.step_id = stepC1.step_id :=
  (c1_amended [jobC1] jobC1 [stepC1] rfl).2.1 stepC1
    (by decide) (by decide) (by decide)

namespace Orchestrator

/-- Stores with equal steps agree on `get_step_outputs`. -/
theorem gso_congr (dbA dbB : Store) (h : StepsEq dbA dbB) (jid sid : Str) :
    get_step_outputs dbA jid sid = get_step_outputs dbB jid sid := by
  unfold get_step_outputs
  have hj := h jid
  cases hA : get_job dbA jid with
  | none =>
    cases hB : get_job dbB jid with
    | none => rfl
    | some jB =>
      rw [hA, hB] at hj
      exact absurd hj (by simp)
  | some jA =>
    cases hB : get_job dbB jid with
    | none =>
      rw [hA, hB] at hj
      exact absurd hj (by simp)
    | some jB =>
      rw [hA, hB] at hj
      simp only [Option.map_some'] at hj
      injection hj with hj2
      show (match jA.steps.find? (fun s => s.step_id = sid) with
        | some s => s.outputs
        | none => []) =
        (match jB.steps.find? (fun s => s.step_id = sid) with
        | some s => s.outputs
        | none => [])
      rw [hj2]

/-- The input-aggregation loop only reads the store through
`get_step_outputs`. -/
theorem aggregateInputs_congr (dbA dbB : Store) (jobA jobB : Job)
    (step : JobStep)
    (hgso : ∀ sid, get_step_outputs dbA jobA.job_id sid =
      get_step_outputs dbB jobB.job_id sid) :
    ∀ (tl : List StepTransition) (acc : List (Str × Str)),
      aggregateInputs dbA jobA step acc tl =
        aggregateInputs dbB jobB step acc tl := by
  intro tl
  induction tl with
  | nil => intro acc; rfl
  | cons t rest ih =>
    intro acc
    simp only [aggregateInputs]
    by_cases ht : t.to_step_id = step.step_id
    · rw [if_pos ht, if_pos ht, hgso t.from_step_id]
      cases apply_mapping t (get_step_outputs dbB jobB.job_id t.from_step_id) with
      | error e => rfl
      | ok mapped => exact ih (dictUpdate acc mapped)
    · rw [if_neg ht, if_neg ht]
      exact ih acc

/-- `_resolve_step_inputs` only reads the store through
`get_step_outputs` and the job through `job_id` and transitions. -/
theorem resolve_step_inputs_congr (dbA dbB : Store) (jobA jobB : Job)
    (s : JobStep)
    (hgso : ∀ sid, get_step_outputs dbA jobA.job_id sid =
      get_step_outputs dbB jobB.job_id sid)
    (htr : jobA.step_transitions = jobB.step_transitions) :
    resolve_step_inputs dbA jobA s = resolve_step_inputs dbB jobB s := by
  unfold resolve_step_inputs
  rw [htr, aggregateInputs_congr dbA dbB jobA jobB s hgso
    jobB.step_transitions []]

/-- Dependency-readiness reads only steps and transitions. -/
theorem are_step_inputs_ready_congr (jobA jobB : Job) (s : JobStep)
    (hsteps : jobA.steps = jobB.steps)
    (htr : jobA.step_transitions = jobB.step_transitions) :
    are_step_inputs_ready jobA s = are_step_inputs_ready jobB s := by
  unfold are_step_inputs_ready
  rw [hsteps, htr]

/-- The ready loop is invariant under job-status changes: it reads the
store only through steps and the job only through its id, steps and
transitions. -/
theorem readyLoop_congr (dbA dbB : Store) (jobA jobB : Job)
    (hse : StepsEq dbA dbB) (hid : jobA.job_id = jobB.job_id)
    (hsteps : jobA.steps = jobB.steps)
    (htr : jobA.step_transitions = jobB.step_transitions) :
    ∀ l, readyLoop dbA jobA l = readyLoop dbB jobB l := by
  have hgso : ∀ sid, get_step_outputs dbA jobA.job_id sid =
      get_step_outputs dbB jobB.job_id sid := fun sid => by
    rw [hid]
    exact gso_congr dbA dbB hse jobB.job_id sid
  intro l
  induction l with
  | nil => rfl
  | cons s rest ih =>
    simp only [readyLoop]
    rw [are_step_inputs_ready_congr jobA jobB s hsteps htr,
      resolve_step_inputs_congr dbA dbB jobA jobB s hgso htr, ih]

/-- Equal-steps stores stay equal-steps after the same step update. -/
theorem stepsEq_update (dbA dbB : Store) (h : StepsEq dbA dbB)
    (jid sid : Str) (st : JobStepStatus) (outs : Option (List (Str × Str))) :
    StepsEq (update_job_step_status dbA jid sid st outs)
      (update_job_step_status dbB jid sid st outs) := by
  intro jid'
  by_cases hj : jid' = jid
  · subst hj
    rw [gGetJob_update_step, gGetJob_update_step, Option.map_map,
      Option.map_map]
    have hcomp : (Job.steps ∘ updateStepsOf sid (setStepFields st outs)) =
        ((fun stps => updateFirstStep stps sid (setStepFields st outs)) ∘
          Job.steps) :=
      funext (fun j => rfl)
    rw [hcomp, ← Option.map_map, ← Option.map_map, h jid']
  · rw [gGetJob_update_step_other dbA jid jid' sid st outs hj,
      gGetJob_update_step_other dbB jid jid' sid st outs hj]
    exact h jid'

/-- A job-status update never changes any job's steps. -/
theorem stepsEq_update_status (db : Store) (jid : Str) (st : JobStatus) :
    StepsEq (update_job_status db jid st) db := by
  intro jid'
  by_cases hj : jid' = jid
  · subst hj
    rw [gGetJob_update_job_status, Option.map_map]
    have hcomp : (Job.steps ∘ setStatus st) = Job.steps := funext (fun j => rfl)
    rw [hcomp]
  · rw [gGetJob_update_job_status_other db jid jid' st hj]

/-- The previous-outputs aggregation only reads the store through
`get_step_outputs`. -/
theorem dispatchPrev_congr (dbA dbB : Store) (jobA jobB : Job) (s : JobStep)
    (hgso : ∀ sid, get_step_outputs dbA jobA.job_id sid =
      get_step_outputs dbB jobB.job_id sid)
    (htr : jobA.step_transitions = jobB.step_transitions) :
    dispatchPrev dbA jobA s = dispatchPrev dbB jobB s := by
  unfold dispatchPrev
  rw [htr]
  have hfun : (fun (acc : List (Str × Str)) (t : StepTransition) =>
      if t.to_step_id = s.step_id then
        dictUpdate acc (get_step_outputs dbA jobA.job_id t.from_step_id)
      else acc) =
      (fun (acc : List (Str × Str)) (t : StepTransition) =>
        if t.to_step_id = s.step_id then
          dictUpdate acc (get_step_outputs dbB jobB.job_id t.from_step_id)
        else acc) :=
    funext (fun (acc : List (Str × Str)) => funext (fun (t : StepTransition) =>
      by rw [hgso t.from_step_id]))
  rw [hfun]

/-- The dispatch envelope reads the job only through its id. -/
theorem dispatchEvent_congr (jobA jobB : Job) (s : JobStep) (ms : Str)
    (hid : jobA.job_id = jobB.job_id) :
    dispatchEvent jobA s ms = dispatchEvent jobB s ms := by
  unfold dispatchEvent
  rw [hid]

/-- Branch-free description of `_dispatch_step`. -/
theorem dispatch_step_eq (db : Store) (job : Job) (s : JobStep) :
    dispatch_step db job s =
      if pyTruthy s.microservice then
        (match JobStepEvent.resolve_and_prepare
            (dispatchEvent job s (s.microservice.getD []))
            (dispatchPrev
              (update_job_step_status db job.job_id s.step_id .processing none)
              job s) job.user_id with
        | .error er =>
          ⟨update_job_step_status db job.job_id s.step_id .processing none,
            none, some er⟩
        | .ok payload =>
          ⟨update_job_step_status db job.job_id s.step_id .processing none,
            some ⟨s.microservice.getD [] ++ str "_requests", payload⟩, none⟩)
      else ⟨db, none, none⟩ := by
  unfold dispatch_step
  by_cases hms : pyTruthy s.microservice = true
  · rw [if_neg (by simp [hms]), if_pos hms]
  · rw [if_pos (by simp [hms]), if_neg hms]

/-- `_dispatch_step` pushes and raises the same under equal-steps stores
and jobs differing only in status, and keeps the stores equal-steps. -/
theorem dispatch_step_congr (dbA dbB : Store) (jobA jobB : Job) (s : JobStep)
    (hse : StepsEq dbA dbB) (hid : jobA.job_id = jobB.job_id)
    (huid : jobA.user_id = jobB.user_id)
    (htr : jobA.step_transitions = jobB.step_transitions) :
    (dispatch_step dbA jobA s).push = (dispatch_step dbB jobB s).push ∧
    (dispatch_step dbA jobA s).err = (dispatch_step dbB jobB s).err ∧
    StepsEq (dispatch_step dbA jobA s).db (dispatch_step dbB jobB s).db := by
  rw [dispatch_step_eq, dispatch_step_eq]
  by_cases hms : pyTruthy s.microservice = true
  · rw [if_pos hms, if_pos hms]
    have hse1 : StepsEq
        (update_job_step_status dbA jobA.job_id s.step_id .processing none)
        (update_job_step_status dbB jobB.job_id s.step_id .processing none) := by
      rw [hid]
      exact stepsEq_update dbA dbB hse jobB.job_id s.step_id .processing none
    have hse1b := hse1
    rw [hid] at hse1b
    have hgso1 : ∀ sid,
        get_step_outputs
          (update_job_step_status dbA jobA.job_id s.step_id .processing none)
          jobA.job_id sid =
        get_step_outputs
          (update_job_step_status dbB jobB.job_id s.step_id .processing none)
          jobB.job_id sid := fun sid => by
      rw [hid]
      exact gso_congr _ _ hse1b jobB.job_id sid
    have hkey : JobStepEvent.resolve_and_prepare
        (dispatchEvent jobA s (s.microservice.getD []))
        (dispatchPrev
          (update_job_step_status dbA jobA.job_id s.step_id .processing none)
          jobA s) jobA.user_id =
        JobStepEvent.resolve_and_prepare
          (dispatchEvent jobB s (s.microservice.getD []))
          (dispatchPrev
            (update_job_step_status dbB jobB.job_id s.step_id .processing none)
            jobB s) jobB.user_id := by
      rw [dispatchEvent_congr jobA jobB s _ hid,
        dispatchPrev_congr _ _ jobA jobB s hgso1 htr, huid]
    rw [hkey]
    cases JobStepEvent.resolve_and_prepare
        (dispatchEvent jobB s (s.microservice.getD []))
        (dispatchPrev
          (update_job_step_status dbB jobB.job_id s.step_id .processing none)
          jobB s) jobB.user_id with
    | error er => exact ⟨rfl, rfl, hse1⟩
    | ok payload => exact ⟨rfl, rfl, hse1⟩
  · rw [if_neg hms, if_neg hms]
    exact ⟨rfl, rfl, hse⟩

/-- The dispatch loop pushes and raises the same under equal-steps stores
and jobs differing only in status. -/
theorem dispatchLoop_congr (jobA jobB : Job)
    (hid : jobA.job_id = jobB.job_id) (huid : jobA.user_id = jobB.user_id)
    (htr : jobA.step_transitions = jobB.step_transitions) :
    ∀ (l : List JobStep) (dbA dbB : Store), StepsEq dbA dbB →
      (dispatchLoop dbA jobA l).pushes = (dispatchLoop dbB jobB l).pushes ∧
      (dispatchLoop dbA jobA l).err = (dispatchLoop dbB jobB l).err ∧
      StepsEq (dispatchLoop dbA jobA l).db (dispatchLoop dbB jobB l).db := by
  intro l
  induction l with
  | nil => intro dbA dbB hse; exact ⟨rfl, rfl, hse⟩
  | cons s rest ih =>
    intro dbA dbB hse
    obtain ⟨hp, he, hdb⟩ := dispatch_step_congr dbA dbB jobA jobB s hse hid huid htr
    simp only [dispatchLoop]
    cases hA : (dispatch_step dbA jobA s).err with
    | some er =>
      rw [hA] at he
      simp only [hA, ← he]
      exact ⟨by rw [hp], trivial, hdb⟩
    | none =>
      rw [hA] at he
      simp only [hA, ← he]
      obtain ⟨ihp, ihe, ihdb⟩ := ih _ _ hdb
      exact ⟨by rw [hp, ihp], ihe, ihdb⟩

end Orchestrator

/-- C5 counterexample: `jobC5` is already `failed`, yet handling the
completion event of its in-flight sibling `c` both records `c`'s outputs
and pushes a dispatch envelope for the now-ready step `d` — refuting
"never causes a StepExecute envelope to be pushed". -/
theorem c5_counterexample :
    jobC5.status = JobStatus.failed ∧
    ((Orchestrator.handle_step_status_event [jobC5] evC5).pushes.map
      (fun p => p.payload.step_id)) = [str "d"] ∧
    ((Orchestrator.get_job
        (Orchestrator.handle_step_status_event [jobC5] evC5).db
        (str "j5")).map (fun j =>
      (j.steps.find? (fun s => s.step_id = str "c")).map
        (fun s => (s.status, s.outputs)))) =
      some (some (JobStepStatus.complete, [(str "o", str "x")])) := by
  refine ⟨rfl, by decide, by decide⟩

/-- C5 (corrected): the status-event handler never reads the job's status
field, so its dispatches are invariant under it — in particular a `failed`
job's sibling completion triggers exactly the dispatches it would trigger
on a healthy job, rather than none. -/
theorem c5_amended (db : Orchestrator.Store)
    (e : Orchestrator.StatusEventMsg) (st : JobStatus) :
    (Orchestrator.handle_step_status_event
        (Orchestrator.update_job_status db e.job_id st) e).pushes =
      (Orchestrator.handle_step_status_event db e).pushes := by
  unfold Orchestrator.handle_step_status_event
  by_cases hempty : (e.job_id.isEmpty || e.step_id.isEmpty ||
      e.status.isEmpty) = true
  · rw [if_pos hempty, if_pos hempty]
  · rw [if_neg hempty, if_neg hempty]
    cases hfs : JobStepStatus.fromStr e.status with
    | none => rfl
    | some status =>
      cases hj : Orchestrator.get_job db e.job_id with
      | none =>
        have hjA : Orchestrator.get_job
            (Orchestrator.update_job_status db e.job_id st) e.job_id = none := by
          rw [Orchestrator.gGetJob_update_job_status, hj]
          rfl
        simp only [hjA, hj]
      | some j0 =>
        have hjA : Orchestrator.get_job
            (Orchestrator.update_job_status db e.job_id st) e.job_id =
            some (Orchestrator.setStatus st j0) := by
          rw [Orchestrator.gGetJob_update_job_status, hj]
          rfl
        simp only [hjA, hj]
        have hjobA : Orchestrator.get_job
            (Orchestrator.update_job_step_status
              (Orchestrator.update_job_status db e.job_id st)
              e.job_id e.step_id status (some e.outputs)) e.job_id =
            some (Orchestrator.setStatus st
              (Orchestrator.updateStepsOf e.step_id
                (Orchestrator.setStepFields status (some e.outputs)) j0)) := by
          rw [Orchestrator.gGetJob_update_step,
            Orchestrator.gGetJob_update_job_status, hj]
          rfl
        have hjobB : Orchestrator.get_job
            (Orchestrator.update_job_step_status db
              e.job_id e.step_id status (some e.outputs)) e.job_id =
            some (Orchestrator.updateStepsOf e.step_id
              (Orchestrator.setStepFields status (some e.outputs)) j0) := by
          rw [Orchestrator.gGetJob_update_step, hj]
          rfl
        simp only [hjobA, hjobB]
        have hseq : Orchestrator.StepsEq
            (Orchestrator.update_job_step_status
              (Orchestrator.update_job_status db e.job_id st)
              e.job_id e.step_id status (some e.outputs))
            (Orchestrator.update_job_step_status db
              e.job_id e.step_id status (some e.outputs)) :=
          Orchestrator.stepsEq_update _ _
            (Orchestrator.stepsEq_update_status db e.job_id st)
            e.job_id e.step_id status (some e.outputs)
        by_cases hc : status = JobStepStatus.complete
        · rw [if_pos hc, if_pos hc]
          have hready : Orchestrator.get_ready_steps
              (Orchestrator.update_job_step_status
                (Orchestrator.update_job_status db e.job_id st)
                e.job_id e.step_id status (some e.outputs))
              (Orchestrator.setStatus st
                (Orchestrator.updateStepsOf e.step_id
                  (Orchestrator.setStepFields status (some e.outputs)) j0)) =
              Orchestrator.get_ready_steps
                (Orchestrator.update_job_step_status db
                  e.job_id e.step_id status (some e.outputs))
                (Orchestrator.updateStepsOf e.step_id
                  (Orchestrator.setStepFields status (some e.outputs)) j0) := by
            unfold Orchestrator.get_ready_steps
            exact Orchestrator.readyLoop_congr _ _
              (Orchestrator.setStatus st
                (Orchestrator.updateStepsOf e.step_id
                  (Orchestrator.setStepFields status (some e.outputs)) j0))
              (Orchestrator.updateStepsOf e.step_id
                (Orchestrator.setStepFields status (some e.outputs)) j0)
              hseq rfl rfl rfl _
          rw [hready]
          cases hr : Orchestrator.get_ready_steps
              (Orchestrator.update_job_step_status db
                e.job_id e.step_id status (some e.outputs))
              (Orchestrator.updateStepsOf e.step_id
                (Orchestrator.setStepFields status (some e.outputs)) j0) with
          | error er => rfl
          | ok l =>
            by_cases hemp : l.isEmpty = true
            · simp only [hemp, if_true]
              have hicc : Orchestrator.is_job_complete
                  (Orchestrator.setStatus st
                    (Orchestrator.updateStepsOf e.step_id
                      (Orchestrator.setStepFields status (some e.outputs)) j0)) =
                  Orchestrator.is_job_complete
                    (Orchestrator.updateStepsOf e.step_id
                      (Orchestrator.setStepFields status (some e.outputs)) j0) :=
                rfl
              by_cases hic : Orchestrator.is_job_complete
                  (Orchestrator.updateStepsOf e.step_id
                    (Orchestrator.setStepFields status (some e.outputs)) j0) = true
              · simp only [hicc, hic, if_true]
              · simp only [hicc, hic, if_false]
                rfl
            · simp only [hemp, if_false]
              exact (Orchestrator.dispatchLoop_congr
                (Orchestrator.setStatus st
                  (Orchestrator.updateStepsOf e.step_id
                    (Orchestrator.setStepFields status (some e.outputs)) j0))
                (Orchestrator.updateStepsOf e.step_id
                  (Orchestrator.setStepFields status (some e.outputs)) j0)
                rfl rfl rfl l _ _ hseq).1
        · by_cases hf : status = JobStepStatus.failed
          · rw [if_neg hc, if_neg hc, if_pos hf, if_pos hf]
          · rw [if_neg hc, if_neg hc, if_neg hf, if_neg hf]

namespace Orchestrator

/-- When the dispatch loop raises nothing, its store effect is exactly the
fold of processing-updates over the dispatched (truthy-microservice)
steps. -/
theorem dispatchLoop_db_of_err_none (job : Job) :
    ∀ (l : List JobStep) (db : Store), (dispatchLoop db job l).err = none →
      (dispatchLoop db job l).db =
        storeFold (fun s => pyTruthy s.microservice) job.job_id l db := by
  intro l
  induction l with
  | nil => intro db _; rfl
  | cons s rest ih =>
    intro db h
    simp only [dispatchLoop, dispatch_step_eq] at h ⊢
    by_cases hms : pyTruthy s.microservice = true
    · simp only [hms, if_true] at h ⊢
      have hfold : storeFold (fun s => pyTruthy s.microservice) job.job_id
          (s :: rest) db =
          storeFold (fun s => pyTruthy s.microservice) job.job_id rest
            (update_job_step_status db job.job_id s.step_id .processing none) := by
        simp only [storeFold, List.foldl_cons]
        rw [if_pos hms]
      rcases hra : JobStepEvent.resolve_and_prepare
          (dispatchEvent job s (s.microservice.getD []))
          (dispatchPrev
            (update_job_step_status db job.job_id s.step_id .processing none)
            job s) job.user_id with er | payload
      · simp only [hra] at h
        exact absurd h (by simp)
      · simp only [hra] at h ⊢
        rw [hfold]
        exact ih _ h
    · have hms2 : pyTruthy s.microservice = false := by
        cases hb : pyTruthy s.microservice
        · rfl
        · exact absurd hb hms
      simp only [hms2, Bool.false_eq_true, if_false] at h ⊢
      have hfold : storeFold (fun s => pyTruthy s.microservice) job.job_id
          (s :: rest) db =
          storeFold (fun s => pyTruthy s.microservice) job.job_id rest db := by
        simp only [storeFold, List.foldl_cons]
        rw [if_neg (by simp [hms2])]
      rw [hfold]
      exact ih _ h

/-- `get_job` through the dispatched-store fold. -/
theorem gGetJob_storeFold (c : JobStep → Bool) (J : Str) :
    ∀ (l : List JobStep) (d : Store),
      get_job (storeFold c J l d) J = (get_job d J).map (jobFold c l) := by
  intro l
  induction l with
  | nil =>
    intro d
    show get_job d J = (get_job d J).map (jobFold c [])
    cases get_job d J with
    | none => rfl
    | some j => rfl
  | cons s l2 ih =>
    intro d
    by_cases hcs : c s = true
    · have h1 : storeFold c J (s :: l2) d =
          storeFold c J l2
            (update_job_step_status d J s.step_id .processing none) := by
        simp only [storeFold, List.foldl_cons]
        rw [if_pos hcs]
      rw [h1, ih, gGetJob_update_step, Option.map_map]
      have hfun : (jobFold c l2 ∘
          updateStepsOf s.step_id (setStepFields .processing none)) =
          jobFold c (s :: l2) := by
        funext j
        simp only [Function.comp, jobFold, List.foldl_cons]
        rw [if_pos hcs]
      rw [hfun]
    · have h1 : storeFold c J (s :: l2) d = storeFold c J l2 d := by
        simp only [storeFold, List.foldl_cons]
        rw [if_neg hcs]
      rw [h1, ih]
      have hfun : jobFold c l2 = jobFold c (s :: l2) := by
        funext j
        simp only [jobFold, List.foldl_cons]
        rw [if_neg hcs]
      rw [hfun]

/-- The job-level fold only rewrites the steps. -/
theorem jobFold_steps (c : JobStep → Bool) :
    ∀ (l : List JobStep) (j : Job),
      (jobFold c l j).steps = stepsFold c l j.steps := by
  intro l
  induction l with
  | nil => intro j; rfl
  | cons s l2 ih =>
    intro j
    by_cases hcs : c s = true
    · have h1 : jobFold c (s :: l2) j =
          jobFold c l2
            (updateStepsOf s.step_id (setStepFields .processing none) j) := by
        simp only [jobFold, List.foldl_cons]
        rw [if_pos hcs]
      have h2 : stepsFold c (s :: l2) j.steps =
          stepsFold c l2
            (updateFirstStep j.steps s.step_id
              (setStepFields .processing none)) := by
        simp only [stepsFold, List.foldl_cons]
        rw [if_pos hcs]
      rw [h1, h2]
      exact ih _
    · have h1 : jobFold c (s :: l2) j = jobFold c l2 j := by
        simp only [jobFold, List.foldl_cons]
        rw [if_neg hcs]
      have h2 : stepsFold c (s :: l2) j.steps = stepsFold c l2 j.steps := by
        simp only [stepsFold, List.foldl_cons]
        rw [if_neg hcs]
      rw [h1, h2]
      exact ih j

/-- The job-level fold keeps the document's id. -/
theorem jobFold_job_id (c : JobStep → Bool) :
    ∀ (l : List JobStep) (j : Job), (jobFold c l j).job_id = j.job_id := by
  intro l
  induction l with
  | nil => intro j; rfl
  | cons s l2 ih =>
    intro j
    by_cases hcs : c s = true
    · have h1 : jobFold c (s :: l2) j =
          jobFold c l2
            (updateStepsOf s.step_id (setStepFields .processing none) j) := by
        simp only [jobFold, List.foldl_cons]
        rw [if_pos hcs]
      rw [h1]
      exact ih _
    · have h1 : jobFold c (s :: l2) j = jobFold c l2 j := by
        simp only [jobFold, List.foldl_cons]
        rw [if_neg hcs]
      rw [h1]
      exact ih j

/-- The job-level fold keeps the transitions. -/
theorem jobFold_tr (c : JobStep → Bool) :
    ∀ (l : List JobStep) (j : Job),
      (jobFold c l j).step_transitions = j.step_transitions := by
  intro l
  induction l with
  | nil => intro j; rfl
  | cons s l2 ih =>
    intro j
    by_cases hcs : c s = true
    · have h1 : jobFold c (s :: l2) j =
          jobFold c l2
            (updateStepsOf s.step_id (setStepFields .processing none) j) := by
        simp only [jobFold, List.foldl_cons]
        rw [if_pos hcs]
      rw [h1]
      exact ih _
    · have h1 : jobFold c (s :: l2) j = jobFold c l2 j := by
        simp only [jobFold, List.foldl_cons]
        rw [if_neg hcs]
      rw [h1]
      exact ih j

/-- Under distinct step ids, the steps fold is a pointwise map. -/
theorem stepsFold_eq_map (c : JobStep → Bool) :
    ∀ (l : List JobStep) (xs : List JobStep),
      (xs.map JobStep.step_id).Nodup →
      stepsFold c l xs = xs.map (markFold c l) := by
  intro l
  induction l with
  | nil =>
    intro xs _
    show xs = xs.map (markFold c [])
    exact (map_eq_self_of_all xs _ (fun x _ => rfl)).symm
  | cons s l2 ih =>
    intro xs hnd
    by_cases hcs : c s = true
    · have h1 : stepsFold c (s :: l2) xs =
          stepsFold c l2
            (updateFirstStep xs s.step_id (setStepFields .processing none)) := by
        simp only [stepsFold, List.foldl_cons]
        rw [if_pos hcs]
      rw [h1, updateFirstStep_map s.step_id _ xs hnd]
      have hpres : ∀ x : JobStep,
          ((if x.step_id = s.step_id then
            setStepFields .processing none x else x) : JobStep).step_id =
          x.step_id := by
        intro x
        by_cases hx : x.step_id = s.step_id
        · rw [if_pos hx]
          rfl
        · rw [if_neg hx]
      have hnd2 : ((xs.map (fun x => if x.step_id = s.step_id then
          setStepFields .processing none x else x)).map
            JobStep.step_id).Nodup := by
        rw [ids_map_of_preserve xs _ hpres]
        exact hnd
      rw [ih _ hnd2, List.map_map]
      refine congrArg (fun f => xs.map f) (funext (fun x => ?_))
      show markFold c l2 (if x.step_id = s.step_id then
        setStepFields .processing none x else x) = markFold c (s :: l2) x
      have h2 : markFold c (s :: l2) x = markFold c l2
          (if c s ∧ x.step_id = s.step_id then
            setStepFields .processing none x else x) := by
        simp only [markFold, List.foldl_cons]
      rw [h2]
      by_cases hx : x.step_id = s.step_id
      · rw [if_pos hx, if_pos ⟨hcs, hx⟩]
      · rw [if_neg hx, if_neg (fun hc => hx hc.2)]
    · have h1 : stepsFold c (s :: l2) xs = stepsFold c l2 xs := by
        simp only [stepsFold, List.foldl_cons]
        rw [if_neg hcs]
      rw [h1, ih xs hnd]
      refine congrArg (fun f => xs.map f) (funext (fun x => ?_))
      have h2 : markFold c (s :: l2) x = markFold c l2
          (if c s ∧ x.step_id = s.step_id then
            setStepFields .processing none x else x) := by
        simp only [markFold, List.foldl_cons]
      rw [h2, if_neg (fun hc => hcs hc.1)]

/-- The accumulated dispatch rewrite keeps a step's id. -/
theorem markFold_step_id (c : JobStep → Bool) :
    ∀ (l : List JobStep) (x : JobStep),
      (markFold c l x).step_id = x.step_id := by
  intro l
  induction l with
  | nil => intro x; rfl
  | cons s l2 ih =>
    intro x
    have h2 : markFold c (s :: l2) x = markFold c l2
        (if c s ∧ x.step_id = s.step_id then
          setStepFields .processing none x else x) := by
      simp only [markFold, List.foldl_cons]
    rw [h2, ih]
    by_cases hc : c s ∧ x.step_id = s.step_id
    · rw [if_pos hc]
      rfl
    · rw [if_neg hc]

/-- The accumulated dispatch rewrite either keeps a step's status or sets
it `processing`. -/
theorem markFold_status (c : JobStep → Bool) :
    ∀ (l : List JobStep) (x : JobStep),
      (markFold c l x).status = x.status ∨
      (markFold c l x).status = .processing := by
  intro l
  induction l with
  | nil => intro x; exact Or.inl rfl
  | cons s l2 ih =>
    intro x
    have h2 : markFold c (s :: l2) x = markFold c l2
        (if c s ∧ x.step_id = s.step_id then
          setStepFields .processing none x else x) := by
      simp only [markFold, List.foldl_cons]
    rw [h2]
    by_cases hc : c s ∧ x.step_id = s.step_id
    · rw [if_pos hc]
      rcases ih (setStepFields .processing none x) with h | h
      · exact Or.inr h
      · exact Or.inr h
    · rw [if_neg hc]
      exact ih x

/-- A step matched by no dispatched id is untouched. -/
theorem markFold_untouched (c : JobStep → Bool) :
    ∀ (l : List JobStep) (x : JobStep),
      (∀ s ∈ l, x.step_id ≠ s.step_id) → markFold c l x = x := by
  intro l
  induction l with
  | nil => intro x _; rfl
  | cons s l2 ih =>
    intro x h
    have h2 : markFold c (s :: l2) x = markFold c l2
        (if c s ∧ x.step_id = s.step_id then
          setStepFields .processing none x else x) := by
      simp only [markFold, List.foldl_cons]
    rw [h2, if_neg (fun hc => h s (List.mem_cons_self s l2) hc.2)]
    exact ih x (fun t ht => h t (List.mem_cons_of_mem s ht))

/-- A step matched by a dispatched (condition-passing) id ends up
`processing`. -/
theorem markFold_touched (c : JobStep → Bool) :
    ∀ (l : List JobStep) (x : JobStep),
      (∃ s ∈ l, c s = true ∧ x.step_id = s.step_id) →
      (markFold c l x).status = .processing := by
  intro l
  induction l with
  | nil =>
    intro x h
    obtain ⟨s, hs, _⟩ := h
    exact absurd hs (List.not_mem_nil s)
  | cons s l2 ih =>
    intro x h
    have h2 : markFold c (s :: l2) x = markFold c l2
        (if c s ∧ x.step_id = s.step_id then
          setStepFields .processing none x else x) := by
      simp only [markFold, List.foldl_cons]
    rw [h2]
    by_cases hc : c s ∧ x.step_id = s.step_id
    · rw [if_pos hc]
      rcases markFold_status c l2 (setStepFields .processing none x) with h3 | h3
      · exact h3
      · exact h3
    · rw [if_neg hc]
      obtain ⟨t, ht, hct, hidt⟩ := h
      rcases List.mem_cons.mp ht with hh | htt
      · subst hh
        exact absurd ⟨hct, hidt⟩ hc
      · exact ih x ⟨t, htt, hct, hidt⟩

end Orchestrator


/-- C2 (corrected): under the assumption that every step of the matched
job names a (truthy) microservice, handling the same
`StepStatus\x7bcomplete\x7d` event a second time is a no-op whenever the first
handling raised nothing: the second run pushes no envelope, changes
nothing in the store, and raises nothing — because the first run marked
every dispatched successor `processing` before pushing.  (Without the
no-raise hypothesis this fails: see the counterexample.) -/
theorem c2_amended (db : Orchestrator.Store) (e : Orchestrator.StatusEventMsg)
    (hst : e.status = str "complete")
    (herr : (Orchestrator.handle_step_status_event db e).err = none)
    (hnd0 : ∀ j0, Orchestrator.get_job db e.job_id = some j0 →
      (j0.steps.map JobStep.step_id).Nodup)
    (hms0 : ∀ j0, Orchestrator.get_job db e.job_id = some j0 →
      ∀ s ∈ j0.steps, pyTruthy s.microservice = true) :
    Orchestrator.handle_step_status_event
        (Orchestrator.handle_step_status_event db e).db e =
      ⟨(Orchestrator.handle_step_status_event db e).db, [], none⟩ := by
  have hfs : JobStepStatus.fromStr e.status = some JobStepStatus.complete := by
    rw [hst]
    decide
  by_cases hempty : (e.job_id.isEmpty || e.step_id.isEmpty ||
      e.status.isEmpty) = true
  · have hR1 : Orchestrator.handle_step_status_event db e = ⟨db, [], none⟩ := by
      unfold Orchestrator.handle_step_status_event
      rw [if_pos hempty]
    rw [hR1]
    exact hR1
  · cases hj : Orchestrator.get_job db e.job_id with
    | none =>
      have hR1 : Orchestrator.handle_step_status_event db e = ⟨db, [], none⟩ := by
        unfold Orchestrator.handle_step_status_event
        rw [if_neg hempty]
        simp only [hfs, hj]
      rw [hR1]
      exact hR1
    | some j0 =>
      have hnd := hnd0 j0 hj
      have hms := hms0 j0 hj
      have hj0id : j0.job_id = e.job_id := by
        have := List.find?_some hj
        simpa using this
      have hdb1job : Orchestrator.get_job (Orchestrator.update_job_step_status db e.job_id e.step_id JobStepStatus.complete (some e.outputs)) e.job_id = some (Orchestrator.updateStepsOf e.step_id (Orchestrator.setStepFields JobStepStatus.complete (some e.outputs)) j0) := by
        rw [Orchestrator.gGetJob_update_step, hj]
        rfl
      have hmapsteps : ((Orchestrator.updateStepsOf e.step_id (Orchestrator.setStepFields JobStepStatus.complete (some e.outputs)) j0)).steps =
          j0.steps.map (fun x => if x.step_id = e.step_id then (Orchestrator.setStepFields JobStepStatus.complete (some e.outputs)) x else x) := by
        show Orchestrator.updateFirstStep j0.steps e.step_id (Orchestrator.setStepFields JobStepStatus.complete (some e.outputs)) = _
        exact Orchestrator.updateFirstStep_map e.step_id (Orchestrator.setStepFields JobStepStatus.complete (some e.outputs)) j0.steps hnd
      have hpresG : ∀ x : JobStep,
          ((if x.step_id = e.step_id then (Orchestrator.setStepFields JobStepStatus.complete (some e.outputs)) x else x) : JobStep).step_id =
          x.step_id := by
        intro x
        by_cases hx : x.step_id = e.step_id
        · rw [if_pos hx]
          rfl
        · rw [if_neg hx]
      have hndF : (((Orchestrator.updateStepsOf e.step_id (Orchestrator.setStepFields JobStepStatus.complete (some e.outputs)) j0)).steps.map JobStep.step_id).Nodup := by
        rw [hmapsteps, Orchestrator.ids_map_of_preserve j0.steps _ hpresG]
        exact hnd
      have hmsF : ∀ s ∈ ((Orchestrator.updateStepsOf e.step_id (Orchestrator.setStepFields JobStepStatus.complete (some e.outputs)) j0)).steps, pyTruthy s.microservice = true := by
        intro s hs
        rw [hmapsteps] at hs
        obtain ⟨x0, hx0, hxe⟩ := List.mem_map.mp hs
        by_cases hx : x0.step_id = e.step_id
        · rw [if_pos hx] at hxe
          rw [← hxe]
          exact hms x0 hx0
        · rw [if_neg hx] at hxe
          rw [← hxe]
          exact hms x0 hx0
      have hidem : Orchestrator.updateFirstStep ((Orchestrator.updateStepsOf e.step_id (Orchestrator.setStepFields JobStepStatus.complete (some e.outputs)) j0)).steps e.step_id (Orchestrator.setStepFields JobStepStatus.complete (some e.outputs)) =
          ((Orchestrator.updateStepsOf e.step_id (Orchestrator.setStepFields JobStepStatus.complete (some e.outputs)) j0)).steps := by
        show Orchestrator.updateFirstStep
          (Orchestrator.updateFirstStep j0.steps e.step_id (Orchestrator.setStepFields JobStepStatus.complete (some e.outputs))) e.step_id (Orchestrator.setStepFields JobStepStatus.complete (some e.outputs)) =
          Orchestrator.updateFirstStep j0.steps e.step_id (Orchestrator.setStepFields JobStepStatus.complete (some e.outputs))
        rw [Orchestrator.updateFirstStep_comp e.step_id (Orchestrator.setStepFields JobStepStatus.complete (some e.outputs)) (Orchestrator.setStepFields JobStepStatus.complete (some e.outputs))
          (fun s => rfl) j0.steps]
        exact congrArg (Orchestrator.updateFirstStep j0.steps e.step_id)
          (funext (fun s => rfl))
      have hFfix : Orchestrator.updateStepsOf e.step_id (Orchestrator.setStepFields JobStepStatus.complete (some e.outputs)) (Orchestrator.updateStepsOf e.step_id (Orchestrator.setStepFields JobStepStatus.complete (some e.outputs)) j0) = (Orchestrator.updateStepsOf e.step_id (Orchestrator.setStepFields JobStepStatus.complete (some e.outputs)) j0) :=
        Orchestrator.updateStepsOf_eq_self e.step_id (Orchestrator.setStepFields JobStepStatus.complete (some e.outputs)) (Orchestrator.updateStepsOf e.step_id (Orchestrator.setStepFields JobStepStatus.complete (some e.outputs)) j0) hidem
      have hR1eq : Orchestrator.handle_step_status_event db e =
          (match Orchestrator.get_ready_steps (Orchestrator.update_job_step_status db e.job_id e.step_id JobStepStatus.complete (some e.outputs)) (Orchestrator.updateStepsOf e.step_id (Orchestrator.setStepFields JobStepStatus.complete (some e.outputs)) j0) with
           | .error er => ⟨(Orchestrator.update_job_step_status db e.job_id e.step_id JobStepStatus.complete (some e.outputs)), [], some er⟩
           | .ok readySteps =>
             if readySteps.isEmpty then
               if Orchestrator.is_job_complete (Orchestrator.updateStepsOf e.step_id (Orchestrator.setStepFields JobStepStatus.complete (some e.outputs)) j0) then
                 ⟨Orchestrator.update_job_status (Orchestrator.update_job_step_status db e.job_id e.step_id JobStepStatus.complete (some e.outputs)) e.job_id
                   JobStatus.complete, [], none⟩
               else ⟨(Orchestrator.update_job_step_status db e.job_id e.step_id JobStepStatus.complete (some e.outputs)), [], none⟩
             else Orchestrator.dispatchLoop (Orchestrator.update_job_step_status db e.job_id e.step_id JobStepStatus.complete (some e.outputs)) (Orchestrator.updateStepsOf e.step_id (Orchestrator.setStepFields JobStepStatus.complete (some e.outputs)) j0) readySteps) := by
        unfold Orchestrator.handle_step_status_event
        rw [if_neg hempty]
        simp only [hfs, hj, hdb1job, if_true]
      cases hready : Orchestrator.get_ready_steps (Orchestrator.update_job_step_status db e.job_id e.step_id JobStepStatus.complete (some e.outputs)) (Orchestrator.updateStepsOf e.step_id (Orchestrator.setStepFields JobStepStatus.complete (some e.outputs)) j0) with
      | error er =>
        simp only [hready] at hR1eq
        rw [hR1eq] at herr
        exact absurd herr (by simp)
      | ok l =>
        simp only [hready] at hR1eq
        by_cases hempl : l.isEmpty = true
        · simp only [hempl, if_true] at hR1eq
          have hl : l = [] := List.isEmpty_iff.mp hempl
          subst hl
          by_cases hic : Orchestrator.is_job_complete (Orchestrator.updateStepsOf e.step_id (Orchestrator.setStepFields JobStepStatus.complete (some e.outputs)) j0) = true
          · simp only [hic, if_true] at hR1eq
            rw [hR1eq]
            have hjC : Orchestrator.get_job
                (Orchestrator.update_job_status (Orchestrator.update_job_step_status db e.job_id e.step_id JobStepStatus.complete (some e.outputs)) e.job_id
                  JobStatus.complete) e.job_id =
                some (Orchestrator.setStatus JobStatus.complete (Orchestrator.updateStepsOf e.step_id (Orchestrator.setStepFields JobStepStatus.complete (some e.outputs)) j0)) := by
              rw [Orchestrator.gGetJob_update_job_status, hdb1job]
              rfl
            have hupd2 : Orchestrator.update_job_step_status
                (Orchestrator.update_job_status (Orchestrator.update_job_step_status db e.job_id e.step_id JobStepStatus.complete (some e.outputs)) e.job_id
                  JobStatus.complete) e.job_id e.step_id
                JobStepStatus.complete (some e.outputs) =
                Orchestrator.update_job_status (Orchestrator.update_job_step_status db e.job_id e.step_id JobStepStatus.complete (some e.outputs)) e.job_id
                  JobStatus.complete :=
              Orchestrator.updateJob_eq_self _ e.job_id _
                (Orchestrator.setStatus JobStatus.complete (Orchestrator.updateStepsOf e.step_id (Orchestrator.setStepFields JobStepStatus.complete (some e.outputs)) j0)) hjC
                (Orchestrator.updateStepsOf_eq_self e.step_id (Orchestrator.setStepFields JobStepStatus.complete (some e.outputs)) _ hidem)
            have hready2 : Orchestrator.get_ready_steps
                (Orchestrator.update_job_status (Orchestrator.update_job_step_status db e.job_id e.step_id JobStepStatus.complete (some e.outputs)) e.job_id
                  JobStatus.complete)
                (Orchestrator.setStatus JobStatus.complete (Orchestrator.updateStepsOf e.step_id (Orchestrator.setStepFields JobStepStatus.complete (some e.outputs)) j0)) = .ok [] := by
              show Orchestrator.readyLoop _ _
                (Orchestrator.setStatus JobStatus.complete (Orchestrator.updateStepsOf e.step_id (Orchestrator.setStepFields JobStepStatus.complete (some e.outputs)) j0)).steps = _
              rw [Orchestrator.readyLoop_congr
                (Orchestrator.update_job_status (Orchestrator.update_job_step_status db e.job_id e.step_id JobStepStatus.complete (some e.outputs)) e.job_id
                  JobStatus.complete) (Orchestrator.update_job_step_status db e.job_id e.step_id JobStepStatus.complete (some e.outputs))
                (Orchestrator.setStatus JobStatus.complete (Orchestrator.updateStepsOf e.step_id (Orchestrator.setStepFields JobStepStatus.complete (some e.outputs)) j0)) (Orchestrator.updateStepsOf e.step_id (Orchestrator.setStepFields JobStepStatus.complete (some e.outputs)) j0)
                (Orchestrator.stepsEq_update_status (Orchestrator.update_job_step_status db e.job_id e.step_id JobStepStatus.complete (some e.outputs)) e.job_id
                  JobStatus.complete) rfl rfl rfl _]
              exact hready
            have hfin : Orchestrator.update_job_status
                (Orchestrator.update_job_status (Orchestrator.update_job_step_status db e.job_id e.step_id JobStepStatus.complete (some e.outputs)) e.job_id
                  JobStatus.complete) e.job_id JobStatus.complete =
                Orchestrator.update_job_status (Orchestrator.update_job_step_status db e.job_id e.step_id JobStepStatus.complete (some e.outputs)) e.job_id
                  JobStatus.complete :=
              Orchestrator.updateJob_eq_self _ e.job_id _ _ hjC rfl
            show Orchestrator.handle_step_status_event
              (Orchestrator.update_job_status (Orchestrator.update_job_step_status db e.job_id e.step_id JobStepStatus.complete (some e.outputs)) e.job_id
                JobStatus.complete) e = _
            unfold Orchestrator.handle_step_status_event
            rw [if_neg hempty]
            simp only [hfs, hupd2, hjC, hready2, if_true, List.isEmpty_nil]
            have hic2 : Orchestrator.is_job_complete
                (Orchestrator.setStatus JobStatus.complete (Orchestrator.updateStepsOf e.step_id (Orchestrator.setStepFields JobStepStatus.complete (some e.outputs)) j0)) = true := hic
            simp only [hic2, if_true]
            rw [hfin]
          · have hic2 : Orchestrator.is_job_complete (Orchestrator.updateStepsOf e.step_id (Orchestrator.setStepFields JobStepStatus.complete (some e.outputs)) j0) = false := by
              cases hb : Orchestrator.is_job_complete (Orchestrator.updateStepsOf e.step_id (Orchestrator.setStepFields JobStepStatus.complete (some e.outputs)) j0)
              · rfl
              · exact absurd hb hic
            simp only [hic2, Bool.false_eq_true, if_false] at hR1eq
            rw [hR1eq]
            have hupd2 : Orchestrator.update_job_step_status (Orchestrator.update_job_step_status db e.job_id e.step_id JobStepStatus.complete (some e.outputs)) e.job_id
                e.step_id JobStepStatus.complete (some e.outputs) = (Orchestrator.update_job_step_status db e.job_id e.step_id JobStepStatus.complete (some e.outputs)) :=
              Orchestrator.updateJob_eq_self _ e.job_id _ (Orchestrator.updateStepsOf e.step_id (Orchestrator.setStepFields JobStepStatus.complete (some e.outputs)) j0) hdb1job hFfix
            show Orchestrator.handle_step_status_event (Orchestrator.update_job_step_status db e.job_id e.step_id JobStepStatus.complete (some e.outputs)) e = _
            unfold Orchestrator.handle_step_status_event
            rw [if_neg hempty]
            simp only [hfs, hupd2, hdb1job, hready, if_true, List.isEmpty_nil]
            simp only [hic2, Bool.false_eq_true, if_false]
        · have hemp2 : l.isEmpty = false := by
            cases hb : l.isEmpty
            · rfl
            · exact absurd hb hempl
          simp only [hemp2, Bool.false_eq_true, if_false] at hR1eq
          rw [hR1eq] at herr
          have hdbF : (Orchestrator.dispatchLoop (Orchestrator.update_job_step_status db e.job_id e.step_id JobStepStatus.complete (some e.outputs)) (Orchestrator.updateStepsOf e.step_id (Orchestrator.setStepFields JobStepStatus.complete (some e.outputs)) j0) l).db =
              Orchestrator.storeFold (fun s : JobStep => pyTruthy s.microservice) ((Orchestrator.updateStepsOf e.step_id (Orchestrator.setStepFields JobStepStatus.complete (some e.outputs)) j0)).job_id l (Orchestrator.update_job_step_status db e.job_id e.step_id JobStepStatus.complete (some e.outputs)) :=
            Orchestrator.dispatchLoop_db_of_err_none (Orchestrator.updateStepsOf e.step_id (Orchestrator.setStepFields JobStepStatus.complete (some e.outputs)) j0) l (Orchestrator.update_job_step_status db e.job_id e.step_id JobStepStatus.complete (some e.outputs)) herr
          have hFid : ((Orchestrator.updateStepsOf e.step_id (Orchestrator.setStepFields JobStepStatus.complete (some e.outputs)) j0)).job_id = e.job_id := hj0id
          rw [hFid] at hdbF
          obtain ⟨hla, hlb⟩ :=
            Orchestrator.readyLoop_mem (Orchestrator.update_job_step_status db e.job_id e.step_id JobStepStatus.complete (some e.outputs)) (Orchestrator.updateStepsOf e.step_id (Orchestrator.setStepFields JobStepStatus.complete (some e.outputs)) j0) ((Orchestrator.updateStepsOf e.step_id (Orchestrator.setStepFields JobStepStatus.complete (some e.outputs)) j0)).steps l hready
          have hcl : ∀ s2 ∈ l, pyTruthy s2.microservice = true := by
            intro s2 hs2
            obtain ⟨s, hsm, hns, hr, hok⟩ := hla s2 hs2
            obtain ⟨hi, hstt, hmic⟩ :=
              Orchestrator.resolve_step_inputs_fields (Orchestrator.update_job_step_status db e.job_id e.step_id JobStepStatus.complete (some e.outputs)) (Orchestrator.updateStepsOf e.step_id (Orchestrator.setStepFields JobStepStatus.complete (some e.outputs)) j0) s s2 hok
            rw [hmic]
            exact hmsF s hsm
          have hsid_not : ∀ s2 ∈ l, s2.step_id ≠ e.step_id := by
            intro s2 hs2 heq
            obtain ⟨s, hsm, hns, hr, hok⟩ := hla s2 hs2
            obtain ⟨hi, _, _⟩ :=
              Orchestrator.resolve_step_inputs_fields (Orchestrator.update_job_step_status db e.job_id e.step_id JobStepStatus.complete (some e.outputs)) (Orchestrator.updateStepsOf e.step_id (Orchestrator.setStepFields JobStepStatus.complete (some e.outputs)) j0) s s2 hok
            rw [hi] at heq
            have hsmem := hsm
            rw [hmapsteps] at hsmem
            obtain ⟨x0, hx0, hxe⟩ := List.mem_map.mp hsmem
            by_cases hx : x0.step_id = e.step_id
            · rw [if_pos hx] at hxe
              refine hns (Or.inr (Or.inl ?_))
              rw [← hxe]
              rfl
            · rw [if_neg hx] at hxe
              rw [← hxe] at heq
              exact hx heq
          have hjobFsteps : (Orchestrator.jobFold (fun s : JobStep => pyTruthy s.microservice) l (Orchestrator.updateStepsOf e.step_id (Orchestrator.setStepFields JobStepStatus.complete (some e.outputs)) j0)).steps =
              ((Orchestrator.updateStepsOf e.step_id (Orchestrator.setStepFields JobStepStatus.complete (some e.outputs)) j0)).steps.map (Orchestrator.markFold (fun s : JobStep => pyTruthy s.microservice) l) := by
            rw [Orchestrator.jobFold_steps,
              Orchestrator.stepsFold_eq_map (fun s : JobStep => pyTruthy s.microservice) l ((Orchestrator.updateStepsOf e.step_id (Orchestrator.setStepFields JobStepStatus.complete (some e.outputs)) j0)).steps hndF]
          have hjF : Orchestrator.get_job
              (Orchestrator.storeFold (fun s : JobStep => pyTruthy s.microservice) e.job_id l (Orchestrator.update_job_step_status db e.job_id e.step_id JobStepStatus.complete (some e.outputs))) e.job_id =
              some (Orchestrator.jobFold (fun s : JobStep => pyTruthy s.microservice) l (Orchestrator.updateStepsOf e.step_id (Orchestrator.setStepFields JobStepStatus.complete (some e.outputs)) j0)) := by
            rw [Orchestrator.gGetJob_storeFold, hdb1job]
            rfl
          have hFfixJ : Orchestrator.updateStepsOf e.step_id (Orchestrator.setStepFields JobStepStatus.complete (some e.outputs))
              (Orchestrator.jobFold (fun s : JobStep => pyTruthy s.microservice) l (Orchestrator.updateStepsOf e.step_id (Orchestrator.setStepFields JobStepStatus.complete (some e.outputs)) j0)) =
              Orchestrator.jobFold (fun s : JobStep => pyTruthy s.microservice) l (Orchestrator.updateStepsOf e.step_id (Orchestrator.setStepFields JobStepStatus.complete (some e.outputs)) j0) := by
            refine Orchestrator.updateStepsOf_eq_self e.step_id (Orchestrator.setStepFields JobStepStatus.complete (some e.outputs)) _
              (Orchestrator.updateFirstStep_id e.step_id (Orchestrator.setStepFields JobStepStatus.complete (some e.outputs)) _
                (fun s2 hs2 hsid2 => ?_))
            rw [hjobFsteps] at hs2
            obtain ⟨x, hx, hxe⟩ := List.mem_map.mp hs2
            rw [← hxe] at hsid2
            rw [Orchestrator.markFold_step_id] at hsid2
            have hxun : ∀ t ∈ l, x.step_id ≠ t.step_id :=
              fun t ht hxeq => hsid_not t ht (hxeq.symm.trans hsid2)
            have hx2 : Orchestrator.markFold (fun s : JobStep => pyTruthy s.microservice) l x = x :=
              Orchestrator.markFold_untouched (fun s : JobStep => pyTruthy s.microservice) l x hxun
            rw [← hxe, hx2]
            have hxmem := hx
            rw [hmapsteps] at hxmem
            obtain ⟨x0, hx0, hxe0⟩ := List.mem_map.mp hxmem
            by_cases hxx : x0.step_id = e.step_id
            · rw [if_pos hxx] at hxe0
              rw [← hxe0]
              rfl
            · rw [if_neg hxx] at hxe0
              rw [← hxe0] at hsid2
              exact absurd hsid2 hxx
          have hcompl_reflect : ∀ y : JobStep,
              (Orchestrator.markFold (fun s : JobStep => pyTruthy s.microservice) l y).status = .complete →
              y.status = .complete := by
            intro y hy
            rcases Orchestrator.markFold_status (fun s : JobStep => pyTruthy s.microservice) l y with h | h
            · rw [← h]
              exact hy
            · rw [h] at hy
              exact absurd hy (by decide)
          have hready2nil : ∀ st2 ∈ (Orchestrator.jobFold (fun s : JobStep => pyTruthy s.microservice) l (Orchestrator.updateStepsOf e.step_id (Orchestrator.setStepFields JobStepStatus.complete (some e.outputs)) j0)).steps,
              (st2.status = .processing ∨ st2.status = .complete ∨
                st2.status = .failed) ∨
              Orchestrator.are_step_inputs_ready
                (Orchestrator.jobFold (fun s : JobStep => pyTruthy s.microservice) l (Orchestrator.updateStepsOf e.step_id (Orchestrator.setStepFields JobStepStatus.complete (some e.outputs)) j0)) st2 = false := by
            intro st2 hst2
            rw [hjobFsteps] at hst2
            obtain ⟨x, hx, hxe⟩ := List.mem_map.mp hst2
            by_cases hskipx : x.status = .processing ∨
                x.status = .complete ∨ x.status = .failed
            · left
              rw [← hxe]
              rcases Orchestrator.markFold_status (fun s : JobStep => pyTruthy s.microservice) l x with h | h
              · rw [h]
                exact hskipx
              · rw [h]
                exact Or.inl rfl
            · by_cases htch : ∃ t ∈ l, x.step_id = t.step_id
              · left
                obtain ⟨t, ht, hxt⟩ := htch
                have hpr : (Orchestrator.markFold (fun s : JobStep => pyTruthy s.microservice) l x).status =
                    .processing :=
                  Orchestrator.markFold_touched (fun s : JobStep => pyTruthy s.microservice) l x ⟨t, ht, hcl t ht, hxt⟩
                rw [← hxe, hpr]
                exact Or.inl rfl
              · right
                push_neg at htch
                have hnr : Orchestrator.are_step_inputs_ready (Orchestrator.updateStepsOf e.step_id (Orchestrator.setStepFields JobStepStatus.complete (some e.outputs)) j0) x = false := by
                  cases hb : Orchestrator.are_step_inputs_ready (Orchestrator.updateStepsOf e.step_id (Orchestrator.setStepFields JobStepStatus.complete (some e.outputs)) j0) x
                  · rfl
                  · exfalso
                    obtain ⟨t2, ht2, hok2⟩ := hlb x hx hskipx hb
                    obtain ⟨hi2, _, _⟩ :=
                      Orchestrator.resolve_step_inputs_fields (Orchestrator.update_job_step_status db e.job_id e.step_id JobStepStatus.complete (some e.outputs)) (Orchestrator.updateStepsOf e.step_id (Orchestrator.setStepFields JobStepStatus.complete (some e.outputs)) j0) x t2 hok2
                    exact htch t2 ht2 hi2.symm
                cases hb2 : Orchestrator.are_step_inputs_ready
                    (Orchestrator.jobFold (fun s : JobStep => pyTruthy s.microservice) l (Orchestrator.updateStepsOf e.step_id (Orchestrator.setStepFields JobStepStatus.complete (some e.outputs)) j0)) st2
                · rfl
                · exfalso
                  have hup := Orchestrator.are_ready_of_map (Orchestrator.updateStepsOf e.step_id (Orchestrator.setStepFields JobStepStatus.complete (some e.outputs)) j0)
                    (Orchestrator.jobFold (fun s : JobStep => pyTruthy s.microservice) l (Orchestrator.updateStepsOf e.step_id (Orchestrator.setStepFields JobStepStatus.complete (some e.outputs)) j0))
                    (Orchestrator.markFold (fun s : JobStep => pyTruthy s.microservice) l)
                    (Orchestrator.jobFold_tr (fun s : JobStep => pyTruthy s.microservice) l (Orchestrator.updateStepsOf e.step_id (Orchestrator.setStepFields JobStepStatus.complete (some e.outputs)) j0)) hjobFsteps
                    (Orchestrator.markFold_step_id (fun s : JobStep => pyTruthy s.microservice) l) hcompl_reflect
                    x st2
                    (by rw [← hxe]; exact Orchestrator.markFold_step_id (fun s : JobStep => pyTruthy s.microservice) l x)
                    hb2
                  rw [hnr] at hup
                  exact Bool.noConfusion hup
          have hready2 : Orchestrator.get_ready_steps
              (Orchestrator.storeFold (fun s : JobStep => pyTruthy s.microservice) e.job_id l (Orchestrator.update_job_step_status db e.job_id e.step_id JobStepStatus.complete (some e.outputs)))
              (Orchestrator.jobFold (fun s : JobStep => pyTruthy s.microservice) l (Orchestrator.updateStepsOf e.step_id (Orchestrator.setStepFields JobStepStatus.complete (some e.outputs)) j0)) = .ok [] :=
            Orchestrator.readyLoop_eq_nil _ _ _ hready2nil
          have hnel : l ≠ [] := fun h0 => by
            rw [h0] at hempl
            exact hempl rfl
          have hnc : Orchestrator.is_job_complete
              (Orchestrator.jobFold (fun s : JobStep => pyTruthy s.microservice) l (Orchestrator.updateStepsOf e.step_id (Orchestrator.setStepFields JobStepStatus.complete (some e.outputs)) j0)) = false := by
            obtain ⟨s2, hs2⟩ := List.exists_mem_of_ne_nil l hnel
            obtain ⟨s, hsm, hns, hr, hok⟩ := hla s2 hs2
            obtain ⟨hi, _, _⟩ :=
              Orchestrator.resolve_step_inputs_fields (Orchestrator.update_job_step_status db e.job_id e.step_id JobStepStatus.complete (some e.outputs)) (Orchestrator.updateStepsOf e.step_id (Orchestrator.setStepFields JobStepStatus.complete (some e.outputs)) j0) s s2 hok
            have htch : (Orchestrator.markFold (fun s : JobStep => pyTruthy s.microservice) l s).status = .processing :=
              Orchestrator.markFold_touched (fun s : JobStep => pyTruthy s.microservice) l s
                ⟨s2, hs2, hcl s2 hs2, hi.symm⟩
            have hmem2 : Orchestrator.markFold (fun s : JobStep => pyTruthy s.microservice) l s ∈
                (Orchestrator.jobFold (fun s : JobStep => pyTruthy s.microservice) l (Orchestrator.updateStepsOf e.step_id (Orchestrator.setStepFields JobStepStatus.complete (some e.outputs)) j0)).steps := by
              rw [hjobFsteps]
              exact List.mem_map.mpr ⟨s, hsm, rfl⟩
            unfold Orchestrator.is_job_complete
            cases hall : (Orchestrator.jobFold (fun s : JobStep => pyTruthy s.microservice) l (Orchestrator.updateStepsOf e.step_id (Orchestrator.setStepFields JobStepStatus.complete (some e.outputs)) j0)).steps.all
                (fun s => s.status = JobStepStatus.complete)
            · rfl
            · exfalso
              have h3 := List.all_eq_true.mp hall _ hmem2
              have h4 : (Orchestrator.markFold (fun s : JobStep => pyTruthy s.microservice) l s).status =
                  JobStepStatus.complete := by simpa using h3
              rw [htch] at h4
              exact absurd h4 (by decide)
          have hupd2 : Orchestrator.update_job_step_status
              (Orchestrator.storeFold (fun s : JobStep => pyTruthy s.microservice) e.job_id l (Orchestrator.update_job_step_status db e.job_id e.step_id JobStepStatus.complete (some e.outputs))) e.job_id e.step_id
              JobStepStatus.complete (some e.outputs) =
              Orchestrator.storeFold (fun s : JobStep => pyTruthy s.microservice) e.job_id l (Orchestrator.update_job_step_status db e.job_id e.step_id JobStepStatus.complete (some e.outputs)) :=
            Orchestrator.updateJob_eq_self _ e.job_id _ _ hjF hFfixJ
          rw [hR1eq, hdbF]
          show Orchestrator.handle_step_status_event
            (Orchestrator.storeFold (fun s : JobStep => pyTruthy s.microservice) e.job_id l (Orchestrator.update_job_step_status db e.job_id e.step_id JobStepStatus.complete (some e.outputs))) e =
            ⟨Orchestrator.storeFold (fun s : JobStep => pyTruthy s.microservice) e.job_id l (Orchestrator.update_job_step_status db e.job_id e.step_id JobStepStatus.complete (some e.outputs)), [], none⟩
          unfold Orchestrator.handle_step_status_event
          rw [if_neg hempty]
          simp only [hfs, hupd2, hjF, hready2, if_true, List.isEmpty_nil]
          simp only [hnc, Bool.false_eq_true, if_false]

/-- Witness for C2: on the two-step chain `jobC2`, handling the completion
of `a` a second time changes nothing and pushes nothing. -/
theorem c2_witness :
    Orchestrator.handle_step_status_event
        (Orchestrator.handle_step_status_event [jobC2] evC2).db evC2 =
      ⟨(Orchestrator.handle_step_status_event [jobC2] evC2).db, [], none⟩ :=
  c2_amended [jobC2] evC2 rfl rfl
    (by
      intro j0 h
      injection h with h2
      subst h2
      decide)
    (by
      intro j0 h
      injection h with h2
      subst h2
      decide)

/-- C2 counterexample: in the fan-out `jobC2b`, dispatching the first
ready successor raises (its input template references an unknown step), so
the first handling pushes nothing and aborts; the duplicate event then
finds `s2` still `pending` and dispatches it — handling twice produces a
dispatch that handling once did not. -/
theorem c2_counterexample :
    (Orchestrator.handle_step_status_event [jobC2b] evC2b).pushes = [] ∧
    (Orchestrator.handle_step_status_event [jobC2b] evC2b).err.isSome = true ∧
    ((Orchestrator.handle_step_status_event
        (Orchestrator.handle_step_status_event [jobC2b] evC2b).db
        evC2b).pushes.map (fun p => p.payload.step_id)) = [str "s2"] := by
  refine ⟨rfl, rfl, rfl⟩
